import Mathlib

/-!
# Verification of the Insights Engine

This file is a shallow embedding, in Lean 4, of the Insights Engine of the
ngm-sec-reports repository (`lib/insights.ts`): the time-series preparer, the
statistics toolkit, the six insight generators (trend, anomaly, milestone,
comparison, forecast, correlation) and the orchestrator `generateInsights`,
together with theorems settling the specification claims about them.

Embedding conventions, chosen once and used consistently:

* JavaScript numbers are embedded as `ℚ`.  All arithmetic the engine performs
  on metric values is field arithmetic and comparisons, so `ℚ` is exact.
  The engine divides without guarding some denominators; in JavaScript this
  produces `Infinity`/`NaN` rather than a trap.  Those division sites are
  tracked explicitly by the `...Denominators` functions below, so that
  claims about division by zero are about the source's division sites and do
  not depend on `ℚ`'s total division.
* `Math.sqrt` appears only inside `stdDev` (used by `zScore`) and inside the
  Pearson denominator.  Both are embedded square-free: a comparison
  `z > c` with `z = (v - mean)/sqrt(variance)` is equivalent, for rational
  inputs, to `variance ≠ 0 ∧ mean < v ∧ c^2 * variance < (v - mean)^2`, and
  `|r| > c` is equivalent to `c^2 * (sumSqX * sumSqY) < numerator^2`.  The
  definitions below use exactly these equivalent rational forms.
* `Date` values (Prisma `DateTime`s, used at day resolution by the engine)
  are embedded as `SDate` records `(year, month0, day)` with `month0` the
  0-based month exactly as returned by JavaScript `getMonth()`; `getTime()`
  comparison is the lexicographic order `dateLEP`.  `setMonth`/`setFullYear`
  overflow semantics (day-of-month larger than the target month rolls into
  the following month) are modelled faithfully by `jsSetMonth` and
  `jsSetFullYear`, including leap years.
* JavaScript's `Array.prototype.sort` is stable (TimSort); any stable sort
  yields the identical output list, so it is embedded as insertion sort
  (`List.insertionSort`), which is stable and structurally recursive.
* Insight id strings `` `${type}-m${n}${suffix}-${timestamp}` `` are embedded
  as the structured type `InsightId`; on every id the engine actually builds,
  the string format is injective, so string equality coincides with
  structural equality of `InsightId`.  `Date.now()` is embedded as a
  parameter `now : ℕ` held fixed for one invocation of the engine.
* Presentation-only fields (title, summary, note strings, recommendation
  strings, the numeric z-score/correlation stored in evidence) are functions
  of the fields that are modelled; they are omitted from the `Insight`
  record.  `getMetricName` is presentation-only and not modelled.
* The engine never reads `endDate`, the amber tolerance band, `flatTolerance`
  or the hidden/comment fields of a reading; they are omitted from the
  records.
-/

/-- A calendar date at day resolution: `year` as `getFullYear()`, `month0`
as the 0-based `getMonth()`, `day` as `getDate()` (1-based). -/
structure SDate where
  year : ℤ
  month0 : ℕ
  day : ℕ
deriving DecidableEq, Repr, Inhabited

/-- The `getTime()` order on dates, at day resolution: lexicographic on
(year, month, day). -/
def dateLEP (a b : SDate) : Prop :=
  a.year < b.year ∨
    (a.year = b.year ∧ (a.month0 < b.month0 ∨ (a.month0 = b.month0 ∧ a.day ≤ b.day)))

instance : DecidableRel dateLEP := fun a b => by unfold dateLEP; infer_instance

instance : IsTotal SDate dateLEP := ⟨by intro a b; unfold dateLEP; omega⟩

instance : IsTrans SDate dateLEP := ⟨by intro a b c; unfold dateLEP; omega⟩

/-- A month label: the engine's `YYYY-MM` strings (built from
`getFullYear()` and `getMonth() + 1` zero-padded).  On the values the engine
builds, the string format is injective, so the label is kept structured. -/
structure YearMonth where
  year : ℤ
  month : ℕ
deriving DecidableEq, Repr, Inhabited

/-- The `YYYY-MM` label of a date: `{year}-{month0 + 1}`. -/
def monthOf (d : SDate) : YearMonth := ⟨d.year, d.month0 + 1⟩

/-- One metric reading inside a period (Prisma `Metric`, engine-relevant
fields only). -/
structure MetricReading where
  metricNumber : ℕ
  value : Option ℚ
  isNA : Bool
deriving DecidableEq, Repr, Inhabited

/-- A reporting period with its readings (Prisma
`ReportingPeriod & {metrics}`, engine-relevant fields only). -/
structure Period where
  pid : ℕ
  startDate : SDate
  isFinalised : Bool
  metrics : List MetricReading
deriving DecidableEq, Repr, Inhabited

/-- Total-order facts for the ascending period comparator. -/
instance : IsTotal Period (fun a b => dateLEP a.startDate b.startDate) :=
  ⟨fun a b => IsTotal.total (r := dateLEP) a.startDate b.startDate⟩

instance : IsTrans Period (fun a b => dateLEP a.startDate b.startDate) :=
  ⟨fun a b c hab hbc => IsTrans.trans (r := dateLEP)
    a.startDate b.startDate c.startDate hab hbc⟩

instance : IsTotal Period (fun a b => dateLEP b.startDate a.startDate) :=
  ⟨fun a b => (IsTotal.total (r := dateLEP) a.startDate b.startDate).symm⟩

instance : IsTrans Period (fun a b => dateLEP b.startDate a.startDate) :=
  ⟨fun a b c hab hbc => IsTrans.trans (r := dateLEP)
    c.startDate b.startDate a.startDate hbc hab⟩

/-- Tolerance band operators; the engine itself only distinguishes
`range` from the rest. -/
inductive BandOperator
  | ge
  | le
  | eqOp
  | range
deriving DecidableEq, Repr, Inhabited

/-- A tolerance record (Prisma `ToleranceBand`, engine-relevant fields
only: the amber band and `flatTolerance` are never read by the engine). -/
structure ToleranceBand where
  metricNumber : ℕ
  isLowerBetter : Bool
  greenOperator : BandOperator
  greenMin : Option ℚ
  greenMax : Option ℚ
  redOperator : BandOperator
  redMin : Option ℚ
  redMax : Option ℚ
deriving DecidableEq, Repr, Inhabited

/-- The six insight types. -/
inductive InsightType
  | trend
  | anomaly
  | milestone
  | comparison
  | forecast
  | correlation
deriving DecidableEq, Repr, Inhabited

/-- Insight severities. -/
inductive Severity
  | info
  | warning
  | critical
deriving DecidableEq, Repr, Inhabited

/-- The id suffixes the engine uses (all the literal suffix strings passed
to `generateInsightId`, plus the parametric `with-${m2}` suffix of the
correlation generator). -/
inductive IdSuffix
  | mom
  | avg3
  | avg6
  | topImproving
  | topDegrading
  | zscore
  | iqr
  | newHigh
  | newLow
  | streak
  | greenThreshold
  | redThreshold
  | ma
  | linear
  | yoy
  | withMetric (m2 : ℕ)
deriving DecidableEq, Repr, Inhabited

/-- An insight id: either `generateInsightId(type, metricNumber, suffix)`
(which appends the `Date.now()` timestamp `ts`), or the literal id
`'no-data'` of the insufficient-data placeholder. -/
inductive InsightId
  | gen (itype : InsightType) (metricNumber : ℕ) (suffix : Option IdSuffix) (ts : ℕ)
  | noData
deriving DecidableEq, Repr, Inhabited

/-- The evidence bundle of an insight (engine-computed numeric fields only;
the free-text notes and the stored z-score/correlation coefficient are
presentation-only and omitted). -/
structure Evidence where
  values : List (YearMonth × ℚ)
  changePct : Option ℚ
deriving DecidableEq, Repr, Inhabited

/-- An insight record (engine-relevant fields; `title`/`summary`/
`recommendations` are presentation-only text and omitted). -/
structure Insight where
  id : InsightId
  itype : InsightType
  severity : Option Severity
  metricKeys : List ℕ
  period : Option (YearMonth × YearMonth)
  evidence : Option Evidence
deriving DecidableEq, Repr, Inhabited

/-- `InsightsOptions`. -/
structure InsightsOptions where
  timeRange : Option ℤ
  metricNumbers : Option (List ℕ)
  types : Option (List InsightType)
deriving DecidableEq, Repr, Inhabited

/-- One point of a prepared metric time series. -/
structure SeriesPoint where
  month : YearMonth
  value : ℚ
  periodId : ℕ
deriving DecidableEq, Repr, Inhabited

/-- The default metric-number list `[1..11]` repeated in every generator. -/
def defaultMetricNumbers : List ℕ := [1, 2, 3, 4, 5, 6, 7, 8, 9, 10, 11]

/-- Periods sorted by start date, oldest first (stable, as in V8). -/
def sortAsc (periods : List Period) : List Period :=
  periods.insertionSort (fun a b => dateLEP a.startDate b.startDate)

/-- Periods sorted by start date, newest first (stable, as in V8). -/
def sortDesc (periods : List Period) : List Period :=
  periods.insertionSort (fun a b => dateLEP b.startDate a.startDate)

/-- `prepareMetricTimeSeries`: chronologically ordered points of one metric,
skipping absent, not-applicable and null readings. -/
def prepareMetricTimeSeries (periods : List Period) (metricNumber : ℕ) :
    List SeriesPoint :=
  (sortAsc periods).filterMap (fun period =>
    match period.metrics.find? (fun m => m.metricNumber == metricNumber) with
    | some metric =>
      if !metric.isNA then
        metric.value.map (fun v => ⟨monthOf period.startDate, v, period.pid⟩)
      else none
    | none => none)

/-- `mean`: sum over length, `0` for the empty list. -/
def mean (values : List ℚ) : ℚ :=
  if values.length = 0 then 0 else values.sum / values.length

/-- The square of `stdDev` (population standard deviation; `stdDev` itself
is `Math.sqrt` of this and is only ever used through comparisons, which are
embedded square-free).  `stdDev` returns `0` for fewer than 2 points, hence
the same guard here. -/
def stdDevSq (values : List ℚ) : ℚ :=
  if values.length < 2 then 0
  else mean (values.map (fun v => (v - mean values) ^ 2))

/-- The square of `zScore value values`: `zScore` returns `0` when the
standard deviation is `0`, otherwise `(value - mean)/stdDev`. -/
def zScoreSq (value : ℚ) (values : List ℚ) : ℚ :=
  if stdDevSq values = 0 then 0 else (value - mean values) ^ 2 / stdDevSq values

/-- `zScore value values > 2`, in square-free form. -/
def zGtTwoB (value : ℚ) (values : List ℚ) : Bool :=
  decide (stdDevSq values ≠ 0 ∧ mean values < value ∧
    4 * stdDevSq values < (value - mean values) ^ 2)

/-- `zScore value values < -2`, in square-free form. -/
def zLtNegTwoB (value : ℚ) (values : List ℚ) : Bool :=
  decide (stdDevSq values ≠ 0 ∧ value < mean values ∧
    4 * stdDevSq values < (value - mean values) ^ 2)

/-- `|zScore value values| > 2`, in square-free form. -/
def zAbsGtTwoB (value : ℚ) (values : List ℚ) : Bool :=
  decide (stdDevSq values ≠ 0 ∧ 4 * stdDevSq values < (value - mean values) ^ 2)

/-- `|zScore value values| > 3`, in square-free form. -/
def zAbsGtThreeB (value : ℚ) (values : List ℚ) : Bool :=
  decide (stdDevSq values ≠ 0 ∧ 9 * stdDevSq values < (value - mean values) ^ 2)

/-- The median of an already sorted array, exactly as the three inline
median computations of `quartiles` read: even length averages the two
central values, odd length takes the central value.  (On the empty list the
source reads `sorted[-1]`, i.e. `undefined`; callers never pass it an empty
half.) -/
def medianSorted (l : List ℚ) : ℚ :=
  if l.length % 2 = 0 then (l.getD (l.length / 2 - 1) 0 + l.getD (l.length / 2) 0) / 2
  else l.getD (l.length / 2) 0

/-- The quartile triple returned by `quartiles`. -/
structure Quartiles where
  q1 : ℚ
  q2 : ℚ
  q3 : ℚ
deriving DecidableEq, Repr, Inhabited

/-- `quartiles`: sort ascending, `q2` the median, `q1` the median of
`sorted.slice(0, floor(len/2))`, `q3` the median of
`sorted.slice(ceil(len/2))`. -/
def quartiles (values : List ℚ) : Quartiles :=
  let sorted := values.insertionSort (· ≤ ·)
  let len := sorted.length
  ⟨medianSorted (sorted.take (len / 2)), medianSorted sorted,
    medianSorted (sorted.drop ((len + 1) / 2))⟩

/-- The numerator of `pearsonCorrelation`: `Σ (xᵢ-x̄)(yᵢ-ȳ)`. -/
def pearsonNum (x y : List ℚ) : ℚ :=
  ((x.zip y).map (fun p => (p.1 - mean x) * (p.2 - mean y))).sum

/-- The square of the denominator of `pearsonCorrelation`:
`sumSqX * sumSqY` (the denominator itself is its `Math.sqrt`). -/
def pearsonDenomSq (x y : List ℚ) : ℚ :=
  ((x.map (fun v => (v - mean x) ^ 2)).sum) * ((y.map (fun v => (v - mean y) ^ 2)).sum)

/-- The square of `pearsonCorrelation x y`, with the source's guards: `0`
for unequal lengths or fewer than 2 points, `0` for a zero denominator. -/
def pearsonRSq (x y : List ℚ) : ℚ :=
  if x.length ≠ y.length ∨ x.length < 2 then 0
  else if pearsonDenomSq x y = 0 then 0
  else pearsonNum x y ^ 2 / pearsonDenomSq x y

/-- The sign of `pearsonCorrelation x y` (the denominator is a positive
square root, so the sign is the sign of the numerator; `0` on the guard
paths). -/
def pearsonSign (x y : List ℚ) : ℚ :=
  if x.length ≠ y.length ∨ x.length < 2 then 0
  else if pearsonDenomSq x y = 0 then 0
  else if 0 < pearsonNum x y then 1 else if pearsonNum x y < 0 then -1 else 0

/-- `|pearsonCorrelation x y| > 7/10`, in square-free form. -/
def pearsonAbsGtB (c : ℚ) (x y : List ℚ) : Bool :=
  decide (¬(x.length ≠ y.length ∨ x.length < 2) ∧ pearsonDenomSq x y ≠ 0 ∧
    c ^ 2 * pearsonDenomSq x y < pearsonNum x y ^ 2)

/-- The metric numbers a generator iterates over:
`options.metricNumbers || [1..11]` (an empty supplied list is truthy in
JavaScript and is kept). -/
def metricNumbersOf (options : InsightsOptions) : List ℕ :=
  options.metricNumbers.getD defaultMetricNumbers

/-- The per-metric part of `generateTrendInsights`: the month-over-month
insight and the two rolling-average insights. -/
def trendPerMetric (series : List SeriesPoint) (metricNumber now : ℕ) :
    List Insight :=
  if series.length < 2 then [] else
  let recent := series.getD (series.length - 1) default
  let previous := series.getD (series.length - 2) default
  let momChange := ((recent.value - previous.value) / previous.value) * 100
  let momPart : List Insight :=
    if 5 < |momChange| then
      [⟨.gen .trend metricNumber (some .mom) now, .trend,
        some (if 20 < |momChange| then .warning else .info), [metricNumber],
        some (previous.month, recent.month),
        some ⟨[(previous.month, previous.value), (recent.month, recent.value)],
          some momChange⟩⟩]
    else []
  let rollPart : List Insight :=
    if 3 ≤ series.length then
      let last3 := series.drop (series.length - 3)
      let avg3 := mean (last3.map (fun v => v.value))
      let current := recent.value
      let diff3 := ((current - avg3) / avg3) * 100
      let avg3Part : List Insight :=
        if 10 < |diff3| then
          [⟨.gen .trend metricNumber (some .avg3) now, .trend,
            some (if 20 < |diff3| then .warning else .info), [metricNumber], none,
            some ⟨last3.map (fun v => (v.month, v.value)), some diff3⟩⟩]
        else []
      let avg6Part : List Insight :=
        if 6 ≤ series.length then
          let last6 := series.drop (series.length - 6)
          let avg6 := mean (last6.map (fun v => v.value))
          let diff6 := ((current - avg6) / avg6) * 100
          if 15 < |diff6| then
            [⟨.gen .trend metricNumber (some .avg6) now, .trend, some .info,
              [metricNumber], none,
              some ⟨last6.map (fun v => (v.month, v.value)), some diff6⟩⟩]
          else []
        else []
      avg3Part ++ avg6Part
    else []
  momPart ++ rollPart

/-- The month-over-month percentage change of one metric, as computed twice
by `generateTrendInsights` (per-metric loop and leaderboard loop). -/
def momChangeOf (series : List SeriesPoint) : ℚ :=
  ((series.getD (series.length - 1) default).value -
      (series.getD (series.length - 2) default).value) /
    (series.getD (series.length - 2) default).value * 100

/-- The leaderboard part of `generateTrendInsights` (top improving / top
degrading metrics), emitted after the per-metric loop. -/
def trendLeaderboard (periods : List Period) (metricNumbers : List ℕ)
    (now : ℕ) : List Insight :=
  if 2 ≤ periods.length ∧ 1 < metricNumbers.length then
    let metricChanges := metricNumbers.filterMap (fun m =>
      let metricSeries := prepareMetricTimeSeries periods m
      if metricSeries.length < 2 then none
      else some (m, momChangeOf metricSeries))
    if 0 < metricChanges.length then
      let sortedChanges :=
        metricChanges.insertionSort (fun a b => b.2 ≤ a.2)
      let topImproving := (sortedChanges.filter (fun m => 0 < m.2)).take 3
      let improvingPart : List Insight :=
        if 0 < topImproving.length then
          [⟨.gen .trend 0 (some .topImproving) now, .trend, some .info,
            topImproving.map (fun m => m.1), none, none⟩]
        else []
      let topDegrading :=
        ((sortedChanges.filter (fun m => m.2 < 0)).insertionSort
          (fun a b => a.2 ≤ b.2)).take 3
      let degradingPart : List Insight :=
        if 0 < topDegrading.length then
          [⟨.gen .trend 0 (some .topDegrading) now, .trend,
            some (if 10 < |(topDegrading.getD 0 default).2| then .warning else .info),
            topDegrading.map (fun m => m.1), none, none⟩]
        else []
      improvingPart ++ degradingPart
    else []
  else []

/-- `generateTrendInsights`. -/
def generateTrendInsights (periods : List Period) (options : InsightsOptions)
    (now : ℕ) : List Insight :=
  ((metricNumbersOf options).flatMap (fun metricNumber =>
    trendPerMetric (prepareMetricTimeSeries periods metricNumber) metricNumber now)) ++
    trendLeaderboard periods (metricNumbersOf options) now

/-- `isLowerBetter` resolved from the first matching tolerance record,
defaulting to `false` when absent. -/
def isLowerBetterOf (tolerances : List ToleranceBand) (metricNumber : ℕ) : Bool :=
  ((tolerances.find? (fun t => t.metricNumber == metricNumber)).map
    (fun t => t.isLowerBetter)).getD false

/-- The z-score path of the anomaly generator for one metric (runs for
series of ≥ 6 points; tests the latest value against all prior points). -/
def anomalyZPart (series : List SeriesPoint) (isLowerBetter : Bool)
    (metricNumber now : ℕ) : List Insight :=
  if 6 ≤ series.length then
    let values := series.map (fun v => v.value)
    let historicalValues := values.dropLast
    let recent := series.getD (series.length - 1) default
    let isBadAnomaly :=
      if isLowerBetter then zGtTwoB recent.value historicalValues
      else zLtNegTwoB recent.value historicalValues
    if isBadAnomaly && zAbsGtTwoB recent.value historicalValues then
      [⟨.gen .anomaly metricNumber (some .zscore) now, .anomaly,
        some (if zAbsGtThreeB recent.value historicalValues then .critical else .warning),
        [metricNumber], some ((series.getD 0 default).month, recent.month),
        some ⟨series.map (fun v => (v.month, v.value)), none⟩⟩]
    else []
  else []

/-- The IQR path of the anomaly generator for one metric (runs for series of
≥ 4 points); skips emission when a z-score insight with the same id is
already among the accumulated `insights`. -/
def anomalyIqrPart (series : List SeriesPoint) (isLowerBetter : Bool)
    (metricNumber now : ℕ) (insights : List Insight) : List Insight :=
  if 4 ≤ series.length then
    let values := series.map (fun v => v.value)
    let historicalValues := values.dropLast
    let recent := series.getD (series.length - 1) default
    let q := quartiles historicalValues
    let iqr := q.q3 - q.q1
    let lowerBound := q.q1 - 3 / 2 * iqr
    let upperBound := q.q3 + 3 / 2 * iqr
    let isBadOutlier :=
      if isLowerBetter then decide (upperBound < recent.value)
      else decide (recent.value < lowerBound)
    if isBadOutlier then
      if (insights.find? (fun i =>
          i.id == InsightId.gen .anomaly metricNumber (some .zscore) now)).isSome then
        []
      else
        [⟨.gen .anomaly metricNumber (some .iqr) now, .anomaly, some .warning,
          [metricNumber], some ((series.getD 0 default).month, recent.month),
          some ⟨series.map (fun v => (v.month, v.value)), none⟩⟩]
    else []
  else []

/-- One iteration of the anomaly generator's metric loop, appending to the
accumulated insight list (the IQR dedup lookup searches that list). -/
def anomalyStep (periods : List Period) (tolerances : List ToleranceBand)
    (now : ℕ) (acc : List Insight) (metricNumber : ℕ) : List Insight :=
  if (prepareMetricTimeSeries periods metricNumber).length < 3 then acc else
  acc ++ anomalyZPart (prepareMetricTimeSeries periods metricNumber)
      (isLowerBetterOf tolerances metricNumber) metricNumber now ++
    anomalyIqrPart (prepareMetricTimeSeries periods metricNumber)
      (isLowerBetterOf tolerances metricNumber) metricNumber now
      (acc ++ anomalyZPart (prepareMetricTimeSeries periods metricNumber)
        (isLowerBetterOf tolerances metricNumber) metricNumber now)

/-- `generateAnomalyInsights`. -/
def generateAnomalyInsights (periods : List Period) (options : InsightsOptions)
    (tolerances : List ToleranceBand) (now : ℕ) : List Insight :=
  (metricNumbersOf options).foldl (anomalyStep periods tolerances now) []

/-- The state of the milestone generator's backward streak scan. -/
structure StreakState where
  currentStreak : ℕ
  streakDirection : Option Bool
  longestStreak : ℕ
  longestStreakDirection : Option Bool
deriving DecidableEq, Repr, Inhabited

/-- One step of the backward streak scan; the pair is
`(series[i], series[i-1])` (`some true` = up, `some false` = down; an equal
step resets the run to 1 and clears the direction). -/
def streakUpd (st : StreakState) (pair : SeriesPoint × SeriesPoint) : StreakState :=
  let current := pair.1.value
  let previous := pair.2.value
  let next : ℕ × Option Bool :=
    if previous < current then
      if st.streakDirection == some true then (st.currentStreak + 1, some true)
      else (2, some true)
    else if current < previous then
      if st.streakDirection == some false then (st.currentStreak + 1, some false)
      else (2, some false)
    else (1, none)
  if st.longestStreak < next.1 then ⟨next.1, next.2, next.1, next.2⟩
  else ⟨next.1, next.2, st.longestStreak, st.longestStreakDirection⟩

/-- The per-metric part of `generateMilestoneInsights`: 12-month new
high/low, streaks, tolerance-zone crossings. -/
def milestonePerMetric (series : List SeriesPoint)
    (tolerance : Option ToleranceBand) (metricNumber now : ℕ) : List Insight :=
  if series.length < 2 then [] else
  let recent := series.getD (series.length - 1) default
  let last12 := if 12 ≤ series.length then series.drop (series.length - 12) else series
  let last12Values := last12.map (fun v => v.value)
  let maxValue := last12Values.max?.getD 0
  let minValue := last12Values.min?.getD 0
  let isLowerBetter := (tolerance.map (fun t => t.isLowerBetter)).getD false
  let highPart : List Insight :=
    if recent.value = maxValue ∧ 3 ≤ series.length then
      [⟨.gen .milestone metricNumber (some .newHigh) now, .milestone,
        some (if isLowerBetter then .warning else .info), [metricNumber],
        some ((last12.getD 0 default).month, recent.month),
        some ⟨last12.map (fun v => (v.month, v.value)), none⟩⟩]
    else []
  let lowPart : List Insight :=
    if recent.value = minValue ∧ 3 ≤ series.length then
      [⟨.gen .milestone metricNumber (some .newLow) now, .milestone,
        some (if isLowerBetter then .info else .warning), [metricNumber],
        some ((last12.getD 0 default).month, recent.month),
        some ⟨last12.map (fun v => (v.month, v.value)), none⟩⟩]
    else []
  let streakPart : List Insight :=
    if 3 ≤ series.length then
      let scanned := (((series.drop 1).zip series).reverse).foldl streakUpd
        ⟨1, none, 1, none⟩
      if 4 ≤ scanned.longestStreak then
        let isGoodStreak :=
          if isLowerBetter then scanned.longestStreakDirection == some false
          else scanned.longestStreakDirection == some true
        [⟨.gen .milestone metricNumber (some .streak) now, .milestone,
          some (if isGoodStreak then .info else .warning), [metricNumber], none,
          some ⟨(series.drop (series.length - scanned.longestStreak)).map
            (fun v => (v.month, v.value)), none⟩⟩]
      else []
    else []
  let zonePart : List Insight :=
    match tolerance with
    | none => []
    | some t =>
      if 2 ≤ series.length then
        let recentValue := recent.value
        let previousValue := (series.getD (series.length - 2) default).value
        let greenPart : List Insight :=
          match t.greenMin, t.greenMax with
          | some gmin, some gmax =>
            if t.greenOperator == BandOperator.range then
              let wasInGreen := gmin ≤ previousValue ∧ previousValue ≤ gmax
              let isInGreen := gmin ≤ recentValue ∧ recentValue ≤ gmax
              if ¬wasInGreen ∧ isInGreen then
                [⟨.gen .milestone metricNumber (some .greenThreshold) now,
                  .milestone, some .info, [metricNumber],
                  some ((series.getD (series.length - 2) default).month, recent.month),
                  some ⟨[((series.getD (series.length - 2) default).month,
                    (series.getD (series.length - 2) default).value),
                    (recent.month, recent.value)], none⟩⟩]
              else []
            else []
          | _, _ => []
        let redPart : List Insight :=
          match t.redMin, t.redMax with
          | some rmin, some rmax =>
            if t.redOperator == BandOperator.range then
              let wasInRed := rmin ≤ previousValue ∧ previousValue ≤ rmax
              let isInRed := rmin ≤ recentValue ∧ recentValue ≤ rmax
              if ¬wasInRed ∧ isInRed then
                [⟨.gen .milestone metricNumber (some .redThreshold) now,
                  .milestone, some .critical, [metricNumber],
                  some ((series.getD (series.length - 2) default).month, recent.month),
                  some ⟨[((series.getD (series.length - 2) default).month,
                    (series.getD (series.length - 2) default).value),
                    (recent.month, recent.value)], none⟩⟩]
              else []
            else []
          | _, _ => []
        greenPart ++ redPart
      else []
  highPart ++ lowPart ++ streakPart ++ zonePart

/-- `generateMilestoneInsights`. -/
def generateMilestoneInsights (periods : List Period) (options : InsightsOptions)
    (tolerances : List ToleranceBand) (now : ℕ) : List Insight :=
  (metricNumbersOf options).flatMap (fun metricNumber =>
    milestonePerMetric (prepareMetricTimeSeries periods metricNumber)
      (tolerances.find? (fun t => t.metricNumber == metricNumber)) metricNumber now)

/-- Gregorian leap-year rule, as implemented by JavaScript `Date`. -/
def isLeapYear (y : ℤ) : Bool :=
  y % 4 == 0 && (y % 100 != 0 || y % 400 == 0)

/-- Days in the month with 0-based index `m0` of year `y`. -/
def daysInMonth (y : ℤ) (m0 : ℕ) : ℕ :=
  [31, if isLeapYear y then 29 else 28, 31, 30, 31, 30, 31, 31, 30, 31, 30, 31].getD m0 31

/-- `setFullYear`, day-overflow included (Feb 29 to a non-leap year becomes
Mar 1). -/
def jsSetFullYear (d : SDate) (y : ℤ) : SDate :=
  if daysInMonth y d.month0 < d.day then
    if d.month0 == 11 then ⟨y + 1, 0, d.day - daysInMonth y d.month0⟩
    else ⟨y, d.month0 + 1, d.day - daysInMonth y d.month0⟩
  else ⟨y, d.month0, d.day⟩

/-- The per-metric part of `generateComparisonInsights`: the MoM insight
from the two most recent periods and the YoY insight against the period
exactly one year before the current one. -/
def comparisonPerMetric (sortedPeriods : List Period)
    (currentPeriod lastPeriod : Period) (metricNumber now : ℕ) : List Insight :=
  match currentPeriod.metrics.find? (fun m => m.metricNumber == metricNumber),
      lastPeriod.metrics.find? (fun m => m.metricNumber == metricNumber) with
  | some currentMetric, some lastMetric =>
    if currentMetric.isNA || lastMetric.isNA then [] else
    match currentMetric.value, lastMetric.value with
    | some currentValue, some lastValue =>
      let change := (currentValue - lastValue) / lastValue * 100
      let momPart : List Insight :=
        if 5 < |change| then
          [⟨.gen .comparison metricNumber (some .mom) now, .comparison,
            some (if 20 < |change| then .warning else .info), [metricNumber],
            some (monthOf lastPeriod.startDate, monthOf currentPeriod.startDate),
            some ⟨[], some change⟩⟩]
        else []
      let yearAgo := jsSetFullYear currentPeriod.startDate
        (currentPeriod.startDate.year - 1)
      let yoyPart : List Insight :=
        match sortedPeriods.find? (fun p =>
            p.startDate.month0 == yearAgo.month0 && p.startDate.year == yearAgo.year) with
        | some yearAgoPeriod =>
          match yearAgoPeriod.metrics.find? (fun m => m.metricNumber == metricNumber) with
          | some yearAgoMetric =>
            if yearAgoMetric.isNA then [] else
            match yearAgoMetric.value with
            | some yearAgoValue =>
              let yoyChange := (currentValue - yearAgoValue) / yearAgoValue * 100
              if 10 < |yoyChange| then
                [⟨.gen .comparison metricNumber (some .yoy) now, .comparison,
                  some (if 25 < |yoyChange| then .warning else .info), [metricNumber],
                  none, some ⟨[], some yoyChange⟩⟩]
              else []
            | none => []
          | none => []
        | none => []
      momPart ++ yoyPart
    | _, _ => []
  | _, _ => []

/-- `generateComparisonInsights`. -/
def generateComparisonInsights (periods : List Period)
    (options : InsightsOptions) (now : ℕ) : List Insight :=
  if (sortDesc periods).length < 2 then [] else
  (metricNumbersOf options).flatMap (fun metricNumber =>
    comparisonPerMetric (sortDesc periods) ((sortDesc periods).getD 0 default)
      ((sortDesc periods).getD 1 default) metricNumber now)

/-- The per-metric part of `generateForecastInsights`: the 3-month
moving-average forecast and, for ≥ 6 points, the linear-regression
forecast when it differs from the moving average by more than 5. -/
def forecastPerMetric (series : List SeriesPoint) (metricNumber now : ℕ) :
    List Insight :=
  if series.length < 3 then [] else
  let values := series.map (fun v => v.value)
  let last3 := values.drop (values.length - 3)
  let forecast := mean last3
  let maPart : List Insight :=
    [⟨.gen .forecast metricNumber (some .ma) now, .forecast, some .info,
      [metricNumber], none,
      some ⟨(series.drop (series.length - 3)).map (fun v => (v.month, v.value)),
        none⟩⟩]
  let linearPart : List Insight :=
    if 6 ≤ series.length then
      let n := series.length
      let sumX := ((List.range n).map (fun i => (i : ℚ))).sum
      let sumY := values.sum
      let sumXY := (values.enum.map (fun p => (p.1 : ℚ) * p.2)).sum
      let sumXX := ((List.range n).map (fun i => ((i : ℚ)) * (i : ℚ))).sum
      let slope := ((n : ℚ) * sumXY - sumX * sumY) / ((n : ℚ) * sumXX - sumX * sumX)
      let intercept := (sumY - slope * sumX) / (n : ℚ)
      let linearForecast := slope * (n : ℚ) + intercept
      if 5 < |linearForecast - forecast| then
        [⟨.gen .forecast metricNumber (some .linear) now, .forecast, some .info,
          [metricNumber], none,
          some ⟨series.map (fun v => (v.month, v.value)), none⟩⟩]
      else []
    else []
  maPart ++ linearPart

/-- `generateForecastInsights`. -/
def generateForecastInsights (periods : List Period) (options : InsightsOptions)
    (now : ℕ) : List Insight :=
  (metricNumbersOf options).flatMap (fun metricNumber =>
    forecastPerMetric (prepareMetricTimeSeries periods metricNumber) metricNumber now)

/-- The keys of a JavaScript object in insertion order (first occurrence
wins), used for the month-keyed `alignedData` record. -/
def insertionOrderKeys {α : Type} [DecidableEq α] (l : List α) : List α :=
  l.foldl (fun acc x => if x ∈ acc then acc else acc ++ [x]) []

/-- The value `alignedData[month][metricNumber]`: repeated assignments for
the same month leave the last written value. -/
def alignedLookup (periods : List Period) (metricNumber : ℕ)
    (ym : YearMonth) : Option ℚ :=
  (((prepareMetricTimeSeries periods metricNumber).filter
    (fun pt => pt.month == ym)).getLast?).map (fun pt => pt.value)

/-- All unordered pairs `(l[i], l[j])` with `i < j`, in the loop order of the
correlation generator. -/
def pairsOf {α : Type} : List α → List (α × α)
  | [] => []
  | a :: rest => (rest.map (fun b => (a, b))) ++ pairsOf rest

/-- The retained metric keys of the correlation generator:
`Object.keys(allSeries)` returns the integer-like metric keys of the
metrics with ≥ 12 prepared points, deduplicated, in ascending numeric
order. -/
def correlationMetricKeys (periods : List Period) (options : InsightsOptions) :
    List ℕ :=
  (insertionOrderKeys ((metricNumbersOf options).filter (fun m =>
    12 ≤ (prepareMetricTimeSeries periods m).length))).insertionSort (· ≤ ·)

/-- The common months of the correlation generator:
`Object.keys(alignedData)` is in insertion order, which starts with the
chronological months of the first retained metric's series; the filter
keeps only months present in every retained series, all of which lie in
that initial segment. -/
def correlationCommonMonths (periods : List Period)
    (options : InsightsOptions) : List YearMonth :=
  (insertionOrderKeys
      ((prepareMetricTimeSeries periods ((correlationMetricKeys periods options).getD 0 0)).map
        (fun pt => pt.month))).filter
    (fun ym => (correlationMetricKeys periods options).all
      (fun mn => (alignedLookup periods mn ym).isSome))

/-- `generateCorrelationInsights`. -/
def generateCorrelationInsights (periods : List Period)
    (options : InsightsOptions) (now : ℕ) : List Insight :=
  if (metricNumbersOf options).length < 2 then [] else
  if (correlationMetricKeys periods options).length < 2 then [] else
  if (correlationCommonMonths periods options).length < 12 then [] else
  (pairsOf (correlationMetricKeys periods options)).flatMap (fun p =>
    let m1 := p.1
    let m2 := p.2
    let commonMonths := correlationCommonMonths periods options
    let values1 := commonMonths.map (fun ym => (alignedLookup periods m1 ym).getD 0)
    let values2 := commonMonths.map (fun ym => (alignedLookup periods m2 ym).getD 0)
    if pearsonAbsGtB (7 / 10) values1 values2 then
      [⟨.gen .correlation m1 (some (.withMetric m2)) now, .correlation, some .info,
        [m1, m2], none,
        some ⟨(commonMonths.drop (commonMonths.length - 6)).map (fun ym =>
          (ym, (alignedLookup periods m1 ym).getD 0)), none⟩⟩]
    else [])

/-- `setMonth`, with JavaScript's year roll-over for out-of-range month
indices and day-of-month overflow into the following month (a valid
day-of-month exceeds a month's length by at most 3 days, so at most one
month is rolled). -/
def jsSetMonth (d : SDate) (mi : ℤ) : SDate :=
  let y := d.year + mi.fdiv 12
  let m0 := (mi.emod 12).toNat
  if daysInMonth y m0 < d.day then
    if m0 == 11 then ⟨y + 1, 0, d.day - daysInMonth y m0⟩
    else ⟨y, m0 + 1, d.day - daysInMonth y m0⟩
  else ⟨y, m0, d.day⟩

/-- The orchestrator's cutoff date: `setMonth(getMonth() - timeRange)`
followed by `setDate(1)`. -/
def cutoffDate (d : SDate) (timeRange : ℤ) : SDate :=
  let c := jsSetMonth d ((d.month0 : ℤ) - timeRange)
  ⟨c.year, c.month0, 1⟩

/-- The orchestrator's time-range filter: when a positive time range is
given and there is at least one period, keep the periods starting on or
after the cutoff computed from the most recent start date over all supplied
periods. -/
def timeRangeFiltered (periods : List Period) (options : InsightsOptions) :
    List Period :=
  match options.timeRange with
  | some timeRange =>
    if 0 < timeRange then
      match sortDesc periods with
      | [] => periods
      | mostRecent :: _ =>
        periods.filter (fun p =>
          decide (dateLEP (cutoffDate mostRecent.startDate timeRange) p.startDate))
    else periods
  | none => periods

/-- The period list actually fed to the generators: the time-range filter
followed by the finalisation filter. -/
def finalFiltered (periods : List Period) (options : InsightsOptions) :
    List Period :=
  (timeRangeFiltered periods options).filter (fun p => p.isFinalised)

/-- The synthetic placeholder returned when no finalised period remains
(id `'no-data'`, type `trend`, severity `info`). -/
def noDataInsight : Insight := ⟨.noData, .trend, some .info, [], none, none⟩

/-- The default requested-types list (all six, in declaration order). -/
def allInsightTypes : List InsightType :=
  [.trend, .anomaly, .milestone, .comparison, .forecast, .correlation]

/-- `generateInsights`: filter periods, emit the placeholder when nothing
remains, otherwise run the requested generators in declaration order and
concatenate. -/
def generateInsights (periods : List Period) (tolerances : List ToleranceBand)
    (options : InsightsOptions) (now : ℕ) : List Insight :=
  if (finalFiltered periods options).length < 1 then [noDataInsight] else
  (if (options.types.getD allInsightTypes).contains InsightType.trend then
    generateTrendInsights (finalFiltered periods options) options now else []) ++
  (if (options.types.getD allInsightTypes).contains InsightType.anomaly then
    generateAnomalyInsights (finalFiltered periods options) options tolerances now
  else []) ++
  (if (options.types.getD allInsightTypes).contains InsightType.milestone then
    generateMilestoneInsights (finalFiltered periods options) options tolerances now
  else []) ++
  (if (options.types.getD allInsightTypes).contains InsightType.comparison then
    generateComparisonInsights (finalFiltered periods options) options now else []) ++
  (if (options.types.getD allInsightTypes).contains InsightType.forecast then
    generateForecastInsights (finalFiltered periods options) options now else []) ++
  (if (options.types.getD allInsightTypes).contains InsightType.correlation then
    generateCorrelationInsights (finalFiltered periods options) options now else [])

/-- Every denominator of the unguarded percentage-change divisions of
`generateTrendInsights`, in evaluation order: `previous.value` of the
month-over-month change, `avg3` and `avg6` of the rolling-average
deviations, and `previous.value` again in the leaderboard loop. -/
def trendDenominators (periods : List Period) (options : InsightsOptions) :
    List ℚ :=
  let metricNumbers := metricNumbersOf options
  (metricNumbers.flatMap (fun metricNumber =>
    let series := prepareMetricTimeSeries periods metricNumber
    if series.length < 2 then [] else
    let previous := series.getD (series.length - 2) default
    [previous.value] ++
      (if 3 ≤ series.length then
        [mean ((series.drop (series.length - 3)).map (fun v => v.value))] ++
          (if 6 ≤ series.length then
            [mean ((series.drop (series.length - 6)).map (fun v => v.value))]
          else [])
      else []))) ++
  (if 2 ≤ periods.length ∧ 1 < metricNumbers.length then
    metricNumbers.flatMap (fun m =>
      let metricSeries := prepareMetricTimeSeries periods m
      if metricSeries.length < 2 then []
      else [(metricSeries.getD (metricSeries.length - 2) default).value])
  else [])

/-- Every denominator of the unguarded percentage-change divisions of
`generateComparisonInsights`: `lastMetric.value` of the MoM change and
`yearAgoMetric.value` of the YoY change. -/
def comparisonDenominators (periods : List Period)
    (options : InsightsOptions) : List ℚ :=
  let sortedPeriods := sortDesc periods
  if sortedPeriods.length < 2 then [] else
  let currentPeriod := sortedPeriods.getD 0 default
  let lastPeriod := sortedPeriods.getD 1 default
  (metricNumbersOf options).flatMap (fun metricNumber =>
    match currentPeriod.metrics.find? (fun m => m.metricNumber == metricNumber),
        lastPeriod.metrics.find? (fun m => m.metricNumber == metricNumber) with
    | some currentMetric, some lastMetric =>
      if currentMetric.isNA || lastMetric.isNA then [] else
      match currentMetric.value, lastMetric.value with
      | some _, some lastValue =>
        let yearAgo := jsSetFullYear currentPeriod.startDate
          (currentPeriod.startDate.year - 1)
        [lastValue] ++
          (match sortedPeriods.find? (fun p =>
              p.startDate.month0 == yearAgo.month0 &&
                p.startDate.year == yearAgo.year) with
          | some yearAgoPeriod =>
            match yearAgoPeriod.metrics.find? (fun m => m.metricNumber == metricNumber) with
            | some yearAgoMetric =>
              if yearAgoMetric.isNA then [] else
              match yearAgoMetric.value with
              | some yearAgoValue => [yearAgoValue]
              | none => []
            | none => []
          | none => [])
      | _, _ => []
    | _, _ => [])

/-- Modelled from the spec wording of the C4 cutoff, for comparison with the
source: the most recent start date minus `timeRange` months with the day set
to 1 — plain month arithmetic, without JavaScript's `setMonth` day-overflow. -/
def claimC4Cutoff (d : SDate) (timeRange : ℤ) : SDate :=
  ⟨d.year + ((d.month0 : ℤ) - timeRange).fdiv 12,
    (((d.month0 : ℤ) - timeRange).emod 12).toNat, 1⟩

/-- Fixture: a period starting 2024-05-31 (day 31 triggers `setMonth`
overflow), not finalised, no readings. -/
def wPeriodC4A : Period := ⟨0, ⟨2024, 4, 31⟩, false, []⟩

/-- Fixture: a period starting 2024-02-15, finalised, no readings. -/
def wPeriodC4B : Period := ⟨1, ⟨2024, 1, 15⟩, true, []⟩

/-- Fixture: options with a 3-month time range, metric 1. -/
def wOptsC4 : InsightsOptions := ⟨some 3, some [1], none⟩

/-- Modelled from the spec's words (C8): the median of a sorted array — the
average of the two central values for even length, the central value for
odd length — written in the uniform two-central-indices form. -/
def claimMedian (l : List ℚ) : ℚ :=
  (l.getD ((l.length - 1) / 2) 0 + l.getD (l.length / 2) 0) / 2

/-- Modelled from the spec's words (C8): quartiles by the median-of-halves
method — Q2 the median of the sorted values, Q1/Q3 the medians of the lower
and upper halves, both halves excluding the overall median element when the
length is odd. -/
def claimQuartiles (values : List ℚ) : Quartiles :=
  ⟨claimMedian ((values.insertionSort (· ≤ ·)).take
      ((values.insertionSort (· ≤ ·)).length / 2)),
    claimMedian (values.insertionSort (· ≤ ·)),
    claimMedian (if (values.insertionSort (· ≤ ·)).length % 2 = 0 then
        (values.insertionSort (· ≤ ·)).drop ((values.insertionSort (· ≤ ·)).length / 2)
      else
        (values.insertionSort (· ≤ ·)).drop
          ((values.insertionSort (· ≤ ·)).length / 2 + 1))⟩

/-- Whether a period contributes a usable reading for a metric: a reading
for that metric number exists, is not marked not-applicable, and has a
non-null value (the per-period condition of `prepareMetricTimeSeries`). -/
def contributesReading (p : Period) (metricNumber : ℕ) : Bool :=
  match p.metrics.find? (fun mr => mr.metricNumber == metricNumber) with
  | some mr => !mr.isNA && mr.value.isSome
  | none => false

/-- Fixture: a finalised period starting on day 1 of the given month, with a
single reading for metric 1. -/
def wPeriod1 (pid : ℕ) (y : ℤ) (m0 : ℕ) (v : Option ℚ) : Period :=
  ⟨pid, ⟨y, m0, 1⟩, true, [⟨1, v, false⟩]⟩

/-- Fixture: six months of metric-1 values `10,12,10,12,10,0` (the last
value is an abnormally low outlier). -/
def wPeriodsLow : List Period :=
  [wPeriod1 0 2024 0 (some 10), wPeriod1 1 2024 1 (some 12),
   wPeriod1 2 2024 2 (some 10), wPeriod1 3 2024 3 (some 12),
   wPeriod1 4 2024 4 (some 10), wPeriod1 5 2024 5 (some 0)]

/-- Fixture: six months of metric-1 values `10,12,10,12,10,30` (the last
value is an abnormally high outlier). -/
def wPeriodsHigh : List Period :=
  [wPeriod1 0 2024 0 (some 10), wPeriod1 1 2024 1 (some 12),
   wPeriod1 2 2024 2 (some 10), wPeriod1 3 2024 3 (some 12),
   wPeriod1 4 2024 4 (some 10), wPeriod1 5 2024 5 (some 30)]

/-- Fixture: two months of metric-1 values `80, 85`. -/
def wPeriodsTwo : List Period :=
  [wPeriod1 0 2024 0 (some 80), wPeriod1 1 2024 1 (some 85)]

/-- Fixture: two months of metric-1 values `-10, -2` (monotonically
increasing, negative). -/
def wPeriodsNeg : List Period :=
  [wPeriod1 0 2024 0 (some (-10)), wPeriod1 1 2024 1 (some (-2))]

/-- Fixture: two months of metric-1 values `0, 5`. -/
def wPeriodsZero : List Period :=
  [wPeriod1 0 2024 0 (some 0), wPeriod1 1 2024 1 (some 5)]

/-- Fixture: three months of the constant metric-1 value `7`. -/
def wPeriodsConst : List Period :=
  [wPeriod1 0 2024 0 (some 7), wPeriod1 1 2024 1 (some 7),
   wPeriod1 2 2024 2 (some 7)]

/-- Fixture: options restricting to metric 1, all types, no time range. -/
def wOptsM1 : InsightsOptions := ⟨none, some [1], none⟩

/-- The anomaly generator's loop invariant: a z-score id in the accumulator
certifies a nonempty z-part for its metric, an IQR id certifies an empty
one. -/
def AnomalyInv (periods : List Period) (tolerances : List ToleranceBand)
    (now : ℕ) (acc : List Insight) : Prop :=
  ∀ m : ℕ,
    (InsightId.gen .anomaly m (some .zscore) now ∈ acc.map (fun i => i.id) →
      anomalyZPart (prepareMetricTimeSeries periods m)
        (isLowerBetterOf tolerances m) m now ≠ []) ∧
    (InsightId.gen .anomaly m (some .iqr) now ∈ acc.map (fun i => i.id) →
      anomalyZPart (prepareMetricTimeSeries periods m)
        (isLowerBetterOf tolerances m) m now = [])

/-- Every insight of the per-metric trend loop has type `trend` and
references exactly its metric. -/
theorem trendPerMetric_fields (series : List SeriesPoint) (metricNumber now : ℕ) :
    ∀ i ∈ trendPerMetric series metricNumber now,
      i.itype = .trend ∧ i.metricKeys = [metricNumber] ∧ 2 ≤ series.length := by
  intro i hi
  unfold trendPerMetric at hi
  split at hi
  case isTrue => exact absurd hi (List.not_mem_nil i)
  case isFalse h2 =>
  have h2' : 2 ≤ series.length := by omega
  simp only [List.mem_append] at hi
  rcases hi with hi | hi
  · split at hi
    · simp only [List.mem_singleton] at hi; subst hi; exact ⟨rfl, rfl, h2'⟩
    · exact absurd hi (List.not_mem_nil i)
  · split at hi
    · simp only [List.mem_append] at hi
      rcases hi with hi | hi
      all_goals repeat' split at hi
      all_goals
        first
          | (exact absurd hi (List.not_mem_nil i))
          | (simp only [List.mem_singleton] at hi; subst hi; exact ⟨rfl, rfl, h2'⟩)
    · exact absurd hi (List.not_mem_nil i)

/-- Every leaderboard insight has type `trend`, and every metric it
references has a prepared series of at least 2 points. -/
theorem trendLeaderboard_fields (periods : List Period) (metricNumbers : List ℕ)
    (now : ℕ) : ∀ i ∈ trendLeaderboard periods metricNumbers now,
      i.itype = .trend ∧
        ∀ k ∈ i.metricKeys, 2 ≤ (prepareMetricTimeSeries periods k).length := by
  intro i hi
  simp only [trendLeaderboard] at hi
  split at hi
  case isFalse => simp at hi
  split at hi
  case isFalse => simp at hi
  have hchange : ∀ k q, (k, q) ∈ metricNumbers.filterMap (fun m =>
      let metricSeries := prepareMetricTimeSeries periods m
      if metricSeries.length < 2 then none
      else some (m, momChangeOf metricSeries)) →
      2 ≤ (prepareMetricTimeSeries periods k).length := by
    intro k q hk
    simp only [List.mem_filterMap] at hk
    obtain ⟨a, -, ha⟩ := hk
    by_cases h2 : (prepareMetricTimeSeries periods a).length < 2
    · simp [h2] at ha
    · simp only [if_neg h2, Option.some.injEq, Prod.mk.injEq] at ha
      obtain ⟨rfl, -⟩ := ha
      omega
  simp only [List.mem_append] at hi
  rcases hi with hi | hi
  · split at hi
    · simp only [List.mem_singleton] at hi
      subst hi
      refine ⟨rfl, ?_⟩
      intro k hk
      simp only [List.mem_map] at hk
      obtain ⟨p, hp, rfl⟩ := hk
      have hp2 := List.mem_of_mem_take hp
      have hp3 := (List.mem_filter.mp hp2).1
      have hp4 := (List.mem_insertionSort _).mp hp3
      exact hchange p.1 p.2 (by simpa using hp4)
    · simp at hi
  · split at hi
    · simp only [List.mem_singleton] at hi
      subst hi
      refine ⟨rfl, ?_⟩
      intro k hk
      simp only [List.mem_map] at hk
      obtain ⟨p, hp, rfl⟩ := hk
      have hp2 := List.mem_of_mem_take hp
      have hp3 := (List.mem_insertionSort _).mp hp2
      have hp4 := (List.mem_filter.mp hp3).1
      have hp5 := (List.mem_insertionSort _).mp hp4
      exact hchange p.1 p.2 (by simpa using hp5)
    · simp at hi

/-- The z-score path emits at most the single z-score insight of its
metric. -/
theorem anomalyZPart_fields (series : List SeriesPoint) (isLowerBetter : Bool)
    (metricNumber now : ℕ) : ∀ i ∈ anomalyZPart series isLowerBetter metricNumber now,
      i.itype = .anomaly ∧ i.metricKeys = [metricNumber] ∧
        i.id = .gen .anomaly metricNumber (some .zscore) now := by
  intro i hi
  simp only [anomalyZPart] at hi
  split at hi
  · split at hi <;> simp_all
  · simp at hi

/-- The IQR path emits at most the single IQR insight of its metric. -/
theorem anomalyIqrPart_fields (series : List SeriesPoint) (isLowerBetter : Bool)
    (metricNumber now : ℕ) (insights : List Insight) :
    ∀ i ∈ anomalyIqrPart series isLowerBetter metricNumber now insights,
      i.itype = .anomaly ∧ i.metricKeys = [metricNumber] ∧
        i.id = .gen .anomaly metricNumber (some .iqr) now := by
  intro i hi
  simp only [anomalyIqrPart] at hi
  repeat' split at hi
  all_goals
    first
      | (exact absurd hi (List.not_mem_nil i))
      | (simp only [List.mem_singleton] at hi; subst hi; exact ⟨rfl, rfl, rfl⟩)

/-- Unfolding `generateAnomalyInsights` over the metric loop: every emitted
insight comes from the accumulator or from the z/IQR part of some metric. -/
theorem mem_anomaly_foldl (periods : List Period) (tolerances : List ToleranceBand)
    (now : ℕ) (metricNumbers : List ℕ) (acc : List Insight) :
    ∀ i ∈ metricNumbers.foldl (anomalyStep periods tolerances now) acc,
      i ∈ acc ∨ ∃ m ∈ metricNumbers,
        (i ∈ anomalyZPart (prepareMetricTimeSeries periods m)
            (isLowerBetterOf tolerances m) m now ∨
          ∃ prior, i ∈ anomalyIqrPart (prepareMetricTimeSeries periods m)
            (isLowerBetterOf tolerances m) m now prior) := by
  induction metricNumbers generalizing acc with
  | nil => intro i hi; exact Or.inl hi
  | cons m rest ih =>
    intro i hi
    simp only [List.foldl_cons] at hi
    have := ih (anomalyStep periods tolerances now acc m) i hi
    rcases this with hacc | ⟨m', hm', hcase⟩
    · simp only [anomalyStep] at hacc
      split at hacc
      · exact Or.inl hacc
      · simp only [List.mem_append] at hacc
        rcases hacc with (hacc | hz) | hiqr
        · exact Or.inl hacc
        · exact Or.inr ⟨m, List.mem_cons_self m rest, Or.inl hz⟩
        · exact Or.inr ⟨m, List.mem_cons_self m rest, Or.inr ⟨_, hiqr⟩⟩
    · exact Or.inr ⟨m', List.mem_cons_of_mem m hm', hcase⟩

/-- Every anomaly insight has type `anomaly`, and references exactly one
metric, whose prepared series has at least 3 points. -/
theorem generateAnomalyInsights_fields (periods : List Period)
    (options : InsightsOptions) (tolerances : List ToleranceBand) (now : ℕ) :
    ∀ i ∈ generateAnomalyInsights periods options tolerances now,
      i.itype = .anomaly ∧ ∃ m ∈ metricNumbersOf options,
        i.metricKeys = [m] ∧ 3 ≤ (prepareMetricTimeSeries periods m).length := by
  intro i hi
  have h := mem_anomaly_foldl periods tolerances now (metricNumbersOf options) [] i hi
  rcases h with h | ⟨m, hm, hz | ⟨prior, hiqr⟩⟩
  · simp at h
  · obtain ⟨ht, hk, -⟩ := anomalyZPart_fields _ _ _ _ i hz
    refine ⟨ht, m, hm, hk, ?_⟩
    simp only [anomalyZPart] at hz
    split at hz
    · omega
    · simp at hz
  · obtain ⟨ht, hk, -⟩ := anomalyIqrPart_fields _ _ _ _ _ i hiqr
    refine ⟨ht, m, hm, hk, ?_⟩
    simp only [anomalyIqrPart] at hiqr
    split at hiqr
    · omega
    · simp at hiqr

/-- Every insight of the per-metric milestone loop has type `milestone` and
references exactly its metric. -/
theorem milestonePerMetric_fields (series : List SeriesPoint)
    (tolerance : Option ToleranceBand) (metricNumber now : ℕ) :
    ∀ i ∈ milestonePerMetric series tolerance metricNumber now,
      i.itype = .milestone ∧ i.metricKeys = [metricNumber] := by
  intro i hi
  simp only [milestonePerMetric] at hi
  split at hi
  · simp at hi
  · simp only [List.mem_append] at hi
    rcases hi with ((hi | hi) | hi) | hi
    · split at hi <;> simp_all
    · split at hi <;> simp_all
    · split at hi
      · split at hi
        · simp_all
        · simp at hi
      · simp at hi
    · rcases htol : tolerance with - | t
      · simp [htol] at hi
      · simp only [htol] at hi
        split at hi
        · simp only [List.mem_append] at hi
          rcases hi with hi | hi
          · rcases hgmin : t.greenMin with - | gmin <;>
              rcases hgmax : t.greenMax with - | gmax <;>
              simp only [hgmin, hgmax] at hi
            · simp at hi
            · simp at hi
            · simp at hi
            · split at hi
              · split at hi <;> simp_all
              · simp at hi
          · rcases hrmin : t.redMin with - | rmin <;>
              rcases hrmax : t.redMax with - | rmax <;>
              simp only [hrmin, hrmax] at hi
            · simp at hi
            · simp at hi
            · simp at hi
            · split at hi
              · split at hi <;> simp_all
              · simp at hi
        · simp at hi

/-- Every milestone insight has type `milestone` and references exactly one
metric, whose prepared series has at least 2 points. -/
theorem generateMilestoneInsights_fields (periods : List Period)
    (options : InsightsOptions) (tolerances : List ToleranceBand) (now : ℕ) :
    ∀ i ∈ generateMilestoneInsights periods options tolerances now,
      i.itype = .milestone ∧ ∃ m ∈ metricNumbersOf options,
        i.metricKeys = [m] ∧ 2 ≤ (prepareMetricTimeSeries periods m).length := by
  intro i hi
  simp only [generateMilestoneInsights, List.mem_flatMap] at hi
  obtain ⟨m, hm, hi⟩ := hi
  obtain ⟨ht, hk⟩ := milestonePerMetric_fields _ _ _ _ i hi
  refine ⟨ht, m, hm, hk, ?_⟩
  simp only [milestonePerMetric] at hi
  split at hi
  · simp at hi
  · omega

/-- Every insight of the per-metric comparison block has type `comparison`
and references exactly its metric. -/
theorem comparisonPerMetric_fields (sortedPeriods : List Period)
    (currentPeriod lastPeriod : Period) (metricNumber now : ℕ) :
    ∀ i ∈ comparisonPerMetric sortedPeriods currentPeriod lastPeriod metricNumber now,
      i.itype = .comparison ∧ i.metricKeys = [metricNumber] := by
  intro i hi
  unfold comparisonPerMetric at hi
  repeat' split at hi
  all_goals try simp only [List.mem_append, List.not_mem_nil, or_false,
    false_or] at hi
  all_goals try rcases hi with hi | hi
  all_goals repeat' split at hi
  all_goals try simp only [List.mem_singleton, List.not_mem_nil] at hi
  all_goals first | exact hi.elim | (subst hi; exact ⟨rfl, rfl⟩)

/-- Every comparison insight has type `comparison` and references exactly
one of the requested metrics. -/
theorem generateComparisonInsights_fields (periods : List Period)
    (options : InsightsOptions) (now : ℕ) :
    ∀ i ∈ generateComparisonInsights periods options now,
      i.itype = .comparison ∧ ∃ m ∈ metricNumbersOf options,
        i.metricKeys = [m] := by
  intro i hi
  simp only [generateComparisonInsights] at hi
  split at hi
  · exact absurd hi (List.not_mem_nil i)
  · simp only [List.mem_flatMap] at hi
    obtain ⟨m, hm, hi⟩ := hi
    obtain ⟨ht, hk⟩ := comparisonPerMetric_fields _ _ _ _ _ i hi
    exact ⟨ht, m, hm, hk⟩

/-- Every insight of the per-metric forecast block has type `forecast` and
references exactly its metric; the block runs only for series of ≥ 3
points. -/
theorem forecastPerMetric_fields (series : List SeriesPoint)
    (metricNumber now : ℕ) : ∀ i ∈ forecastPerMetric series metricNumber now,
      i.itype = .forecast ∧ i.metricKeys = [metricNumber] ∧ 3 ≤ series.length := by
  intro i hi
  unfold forecastPerMetric at hi
  split at hi
  case isTrue => exact absurd hi (List.not_mem_nil i)
  case isFalse h3 =>
  simp only [List.mem_append] at hi
  rcases hi with hi | hi
  · simp only [List.mem_singleton] at hi; subst hi; exact ⟨rfl, rfl, by omega⟩
  · repeat' split at hi
    all_goals
      first
        | (exact absurd hi (List.not_mem_nil i))
        | (simp only [List.mem_singleton] at hi; subst hi; exact ⟨rfl, rfl, by omega⟩)

/-- Every forecast insight has type `forecast` and references exactly one
metric, whose prepared series has at least 3 points. -/
theorem generateForecastInsights_fields (periods : List Period)
    (options : InsightsOptions) (now : ℕ) :
    ∀ i ∈ generateForecastInsights periods options now,
      i.itype = .forecast ∧ ∃ m ∈ metricNumbersOf options,
        i.metricKeys = [m] ∧ 3 ≤ (prepareMetricTimeSeries periods m).length := by
  intro i hi
  simp only [generateForecastInsights, List.mem_flatMap] at hi
  obtain ⟨m, hm, hi⟩ := hi
  obtain ⟨ht, hk, hlen⟩ := forecastPerMetric_fields _ _ _ i hi
  exact ⟨ht, m, hm, hk, hlen⟩

/-- Membership in `pairsOf` implies membership of both components. -/
theorem mem_pairsOf {α : Type} {l : List α} {p : α × α} (hp : p ∈ pairsOf l) :
    p.1 ∈ l ∧ p.2 ∈ l := by
  induction l with
  | nil => simp [pairsOf] at hp
  | cons a rest ih =>
    simp only [pairsOf, List.mem_append, List.mem_map] at hp
    rcases hp with ⟨b, hb, rfl⟩ | hp
    · exact ⟨List.mem_cons_self a rest, List.mem_cons_of_mem a hb⟩
    · obtain ⟨h1, h2⟩ := ih hp
      exact ⟨List.mem_cons_of_mem a h1, List.mem_cons_of_mem a h2⟩

/-- Membership is preserved by `insertionOrderKeys`. -/
theorem mem_insertionOrderKeys {α : Type} [DecidableEq α] {l : List α} {x : α} :
    x ∈ insertionOrderKeys l ↔ x ∈ l := by
  have main : ∀ (l acc : List α),
      (∀ y, y ∈ l.foldl (fun acc x => if x ∈ acc then acc else acc ++ [x]) acc ↔
        y ∈ acc ∨ y ∈ l) := by
    intro l
    induction l with
    | nil => intro acc y; simp
    | cons a rest ih =>
      intro acc y
      simp only [List.foldl_cons]
      by_cases ha : a ∈ acc
      · rw [if_pos ha, ih]
        constructor
        · rintro (h | h)
          · exact Or.inl h
          · exact Or.inr (List.mem_cons_of_mem a h)
        · rintro (h | h)
          · exact Or.inl h
          · rcases List.mem_cons.mp h with rfl | h
            · exact Or.inl ha
            · exact Or.inr h
      · rw [if_neg ha, ih]
        simp only [List.mem_append, List.mem_singleton, List.mem_cons]
        tauto
  unfold insertionOrderKeys
  rw [main l []]
  simp

/-- Every correlation insight has type `correlation`, and each of its two
referenced metrics is a requested metric whose prepared series has at
least 12 points. -/
theorem generateCorrelationInsights_fields (periods : List Period)
    (options : InsightsOptions) (now : ℕ) :
    ∀ i ∈ generateCorrelationInsights periods options now,
      i.itype = .correlation ∧ ∃ m1 m2, i.metricKeys = [m1, m2] ∧
        m1 ∈ metricNumbersOf options ∧ m2 ∈ metricNumbersOf options ∧
        12 ≤ (prepareMetricTimeSeries periods m1).length ∧
        12 ≤ (prepareMetricTimeSeries periods m2).length := by
  intro i hi
  unfold generateCorrelationInsights at hi
  split at hi
  case isTrue => exact absurd hi (List.not_mem_nil i)
  split at hi
  case isTrue => exact absurd hi (List.not_mem_nil i)
  split at hi
  case isTrue => exact absurd hi (List.not_mem_nil i)
  simp only [List.mem_flatMap] at hi
  obtain ⟨p, hp, hi⟩ := hi
  obtain ⟨h1, h2⟩ := mem_pairsOf hp
  unfold correlationMetricKeys at h1 h2
  rw [List.mem_insertionSort, mem_insertionOrderKeys, List.mem_filter] at h1 h2
  obtain ⟨h1m, h1len⟩ := h1
  obtain ⟨h2m, h2len⟩ := h2
  split at hi
  · simp only [List.mem_singleton] at hi
    subst hi
    exact ⟨rfl, p.1, p.2, rfl, h1m, h2m, by simpa using h1len, by simpa using h2len⟩
  · exact absurd hi (List.not_mem_nil i)

/-- `finalFiltered` is empty exactly when the orchestrator's placeholder
branch is taken. -/
theorem generateInsights_of_empty (periods : List Period)
    (tolerances : List ToleranceBand) (options : InsightsOptions) (now : ℕ)
    (h : finalFiltered periods options = []) :
    generateInsights periods tolerances options now = [noDataInsight] := by
  unfold generateInsights
  rw [h]
  simp

/-- Every trend insight has type `trend`, and every metric it references
has a prepared series of at least 2 points. -/
theorem generateTrendInsights_fields (periods : List Period)
    (options : InsightsOptions) (now : ℕ) :
    ∀ i ∈ generateTrendInsights periods options now,
      i.itype = .trend ∧
        ∀ k ∈ i.metricKeys, 2 ≤ (prepareMetricTimeSeries periods k).length := by
  intro i hi
  simp only [generateTrendInsights, List.mem_append, List.mem_flatMap] at hi
  rcases hi with ⟨m, hm, hi⟩ | hi
  · obtain ⟨ht, hk, hlen⟩ := trendPerMetric_fields _ _ _ i hi
    refine ⟨ht, ?_⟩
    intro k hk2
    rw [hk, List.mem_singleton] at hk2
    subst hk2
    exact hlen
  · exact trendLeaderboard_fields _ _ _ i hi

/-- In the non-placeholder branch, every returned insight has a type among
the requested types. -/
theorem generateInsights_types (periods : List Period)
    (tolerances : List ToleranceBand) (options : InsightsOptions) (now : ℕ)
    (h : finalFiltered periods options ≠ []) :
    ∀ i ∈ generateInsights periods tolerances options now,
      i.itype ∈ options.types.getD allInsightTypes := by
  intro i hi
  unfold generateInsights at hi
  rw [if_neg (by simpa [Nat.lt_one_iff, List.length_eq_zero] using h)] at hi
  simp only [List.mem_append] at hi
  rcases hi with ((((hi | hi) | hi) | hi) | hi) | hi
  · split at hi
    case isFalse => exact absurd hi (List.not_mem_nil i)
    case isTrue hc =>
      rw [(generateTrendInsights_fields _ _ _ i hi).1]
      simpa using hc
  · split at hi
    case isFalse => exact absurd hi (List.not_mem_nil i)
    case isTrue hc =>
      rw [(generateAnomalyInsights_fields _ _ _ _ i hi).1]
      simpa using hc
  · split at hi
    case isFalse => exact absurd hi (List.not_mem_nil i)
    case isTrue hc =>
      rw [(generateMilestoneInsights_fields _ _ _ _ i hi).1]
      simpa using hc
  · split at hi
    case isFalse => exact absurd hi (List.not_mem_nil i)
    case isTrue hc =>
      rw [(generateComparisonInsights_fields _ _ _ i hi).1]
      simpa using hc
  · split at hi
    case isFalse => exact absurd hi (List.not_mem_nil i)
    case isTrue hc =>
      rw [(generateForecastInsights_fields _ _ _ i hi).1]
      simpa using hc
  · split at hi
    case isFalse => exact absurd hi (List.not_mem_nil i)
    case isTrue hc =>
      rw [(generateCorrelationInsights_fields _ _ _ i hi).1]
      simpa using hc


/-- C9: whenever at least one finalised period remains after filtering,
every insight returned by `generateInsights` has a type contained in the
requested set (`options.types`, defaulting to all six types); whereas when
zero finalised periods remain, the single placeholder insight returned
always has type `trend` and id `no-data` (and severity `info`), regardless
of the requested types. -/
theorem claim_c9 (periods : List Period) (tolerances : List ToleranceBand)
    (options : InsightsOptions) (now : ℕ) :
    (finalFiltered periods options ≠ [] →
      ∀ i ∈ generateInsights periods tolerances options now,
        i.itype ∈ options.types.getD allInsightTypes) ∧
    (finalFiltered periods options = [] →
      generateInsights periods tolerances options now = [noDataInsight] ∧
        noDataInsight.itype = .trend ∧ noDataInsight.id = .noData ∧
        noDataInsight.severity = some .info) :=
  ⟨fun h => generateInsights_types periods tolerances options now h,
   fun h => ⟨generateInsights_of_empty periods tolerances options now h, rfl, rfl, rfl⟩⟩

/-- Witness for C9: concrete instantiations of both branches — a run with
one requested type on data, and a run with no finalised period and a
non-`trend` requested-type list that still yields the `trend`-typed
placeholder. -/
theorem claim_c9_witness :
    (∀ i ∈ generateInsights wPeriodsTwo [] ⟨none, some [1], some [.comparison]⟩ 0,
      i.itype ∈ [InsightType.comparison]) ∧
    generateInsights [⟨0, ⟨2024, 0, 1⟩, false, []⟩] []
      ⟨none, some [1], some [.anomaly]⟩ 0 = [noDataInsight] := by
  constructor
  · intro i hi
    have h := (claim_c9 wPeriodsTwo [] ⟨none, some [1], some [.comparison]⟩ 0).1
      (by decide) i hi
    simpa using h
  · exact ((claim_c9 [⟨0, ⟨2024, 0, 1⟩, false, []⟩] []
      ⟨none, some [1], some [.anomaly]⟩ 0).2 (by decide)).1

/-- The prepared series has exactly one point per contributing period. -/
theorem length_prepare_eq_countP (periods : List Period) (metricNumber : ℕ) :
    (prepareMetricTimeSeries periods metricNumber).length =
      periods.countP (fun p => contributesReading p metricNumber) := by
  unfold prepareMetricTimeSeries sortAsc
  rw [List.length_filterMap_eq_countP]
  rw [(List.perm_insertionSort _ periods).countP_eq]
  apply List.countP_congr
  intro p _hp
  unfold contributesReading
  cases hf : p.metrics.find? (fun mr => mr.metricNumber == metricNumber) with
  | none => simp
  | some mr =>
    by_cases hna : mr.isNA
    · simp [hna]
    · cases hv : mr.value <;> simp [hna, hv]

/-- A per-metric comparison block for a metric without usable readings in
either of the two most recent periods emits nothing. -/
theorem comparisonPerMetric_eq_nil (sortedPeriods : List Period)
    (currentPeriod lastPeriod : Period) (metricNumber now : ℕ)
    (h : contributesReading currentPeriod metricNumber = false ∨
      contributesReading lastPeriod metricNumber = false) :
    comparisonPerMetric sortedPeriods currentPeriod lastPeriod metricNumber now = [] := by
  unfold comparisonPerMetric
  unfold contributesReading at h
  cases hc : currentPeriod.metrics.find? (fun mr => mr.metricNumber == metricNumber) with
  | none => rfl
  | some cm =>
    cases hl : lastPeriod.metrics.find? (fun mr => mr.metricNumber == metricNumber) with
    | none => rfl
    | some lm =>
      rw [hc, hl] at h
      simp only
      by_cases hna : (cm.isNA || lm.isNA) = true
      · simp [hna]
      · rw [if_neg hna]
        cases hcv : cm.value with
        | none => rfl
        | some cv =>
          cases hlv : lm.value with
          | none => rfl
          | some lv =>
            exfalso
            simp only [Bool.or_eq_true] at hna
            push_neg at hna
            have h1 : cm.isNA = false := by simpa using hna.1
            have h2 : lm.isNA = false := by simpa using hna.2
            rcases h with h | h
            · simp [hcv, h1] at h
            · simp [hlv, h2] at h

/-- C5: for a metric with at most one contributing period, the prepared
series has length ≤ 1 and none of the six generators emits an insight
referencing that metric. -/
theorem claim_c5 (periods : List Period) (options : InsightsOptions)
    (tolerances : List ToleranceBand) (now m : ℕ)
    (h : periods.countP (fun p => contributesReading p m) ≤ 1) :
    (prepareMetricTimeSeries periods m).length ≤ 1 ∧
    (∀ i ∈ generateTrendInsights periods options now, m ∉ i.metricKeys) ∧
    (∀ i ∈ generateAnomalyInsights periods options tolerances now, m ∉ i.metricKeys) ∧
    (∀ i ∈ generateMilestoneInsights periods options tolerances now, m ∉ i.metricKeys) ∧
    (∀ i ∈ generateComparisonInsights periods options now, m ∉ i.metricKeys) ∧
    (∀ i ∈ generateForecastInsights periods options now, m ∉ i.metricKeys) ∧
    (∀ i ∈ generateCorrelationInsights periods options now, m ∉ i.metricKeys) := by
  have hlen : (prepareMetricTimeSeries periods m).length ≤ 1 := by
    rw [length_prepare_eq_countP]; exact h
  refine ⟨hlen, ?_, ?_, ?_, ?_, ?_, ?_⟩
  · intro i hi hm
    have := (generateTrendInsights_fields periods options now i hi).2 m hm
    omega
  · intro i hi hm
    obtain ⟨-, m', hm', hk, hl⟩ :=
      generateAnomalyInsights_fields periods options tolerances now i hi
    rw [hk, List.mem_singleton] at hm
    subst hm
    omega
  · intro i hi hm
    obtain ⟨-, m', hm', hk, hl⟩ :=
      generateMilestoneInsights_fields periods options tolerances now i hi
    rw [hk, List.mem_singleton] at hm
    subst hm
    omega
  · intro i hi hm
    unfold generateComparisonInsights at hi
    split at hi
    case isTrue => exact absurd hi (List.not_mem_nil i)
    case isFalse hlen2 =>
    simp only [List.mem_flatMap] at hi
    obtain ⟨m', hm', hi⟩ := hi
    obtain ⟨-, hk⟩ := comparisonPerMetric_fields _ _ _ _ _ i hi
    rw [hk, List.mem_singleton] at hm
    subst hm
    rcases hsd : sortDesc periods with _ | ⟨a, _ | ⟨b, t⟩⟩
    · rw [hsd] at hlen2; simp at hlen2
    · rw [hsd] at hlen2; simp at hlen2
    · rw [hsd] at hi
      simp only [List.getD_cons_zero, List.getD_cons_succ] at hi
      by_cases hca : contributesReading a m = true
      · by_cases hcb : contributesReading b m = true
        · have hcount : 2 ≤ (sortDesc periods).countP
              (fun p => contributesReading p m) := by
            rw [hsd]
            simp [List.countP_cons, hca, hcb]
          unfold sortDesc at hcount
          rw [(List.perm_insertionSort _ periods).countP_eq] at hcount
          omega
        · rw [comparisonPerMetric_eq_nil _ _ _ _ _
            (Or.inr (by simpa using hcb))] at hi
          exact absurd hi (List.not_mem_nil i)
      · rw [comparisonPerMetric_eq_nil _ _ _ _ _
          (Or.inl (by simpa using hca))] at hi
        exact absurd hi (List.not_mem_nil i)
  · intro i hi hm
    obtain ⟨-, m', hm', hk, hl⟩ := generateForecastInsights_fields periods options now i hi
    rw [hk, List.mem_singleton] at hm
    subst hm
    omega
  · intro i hi hm
    obtain ⟨-, m1, m2, hk, -, -, h1, h2⟩ :=
      generateCorrelationInsights_fields periods options now i hi
    rw [hk] at hm
    rcases List.mem_cons.mp hm with rfl | hm2
    · omega
    · rcases List.mem_cons.mp hm2 with rfl | hm3
      · omega
      · exact absurd hm3 (List.not_mem_nil m)

/-- Witness for C5: one single-period input (one usable reading for
metric 1), with the hypothesis discharged by evaluation. -/
theorem claim_c5_witness :
    (prepareMetricTimeSeries [wPeriod1 0 2024 0 (some 5)] 1).length ≤ 1 ∧
    (∀ i ∈ generateTrendInsights [wPeriod1 0 2024 0 (some 5)] wOptsM1 0,
      1 ∉ i.metricKeys) ∧
    (∀ i ∈ generateAnomalyInsights [wPeriod1 0 2024 0 (some 5)] wOptsM1 [] 0,
      1 ∉ i.metricKeys) ∧
    (∀ i ∈ generateMilestoneInsights [wPeriod1 0 2024 0 (some 5)] wOptsM1 [] 0,
      1 ∉ i.metricKeys) ∧
    (∀ i ∈ generateComparisonInsights [wPeriod1 0 2024 0 (some 5)] wOptsM1 0,
      1 ∉ i.metricKeys) ∧
    (∀ i ∈ generateForecastInsights [wPeriod1 0 2024 0 (some 5)] wOptsM1 0,
      1 ∉ i.metricKeys) ∧
    (∀ i ∈ generateCorrelationInsights [wPeriod1 0 2024 0 (some 5)] wOptsM1 0,
      1 ∉ i.metricKeys) :=
  claim_c5 [wPeriod1 0 2024 0 (some 5)] wOptsM1 [] 0 1 (by decide)

/-- Push an existential through the left part of an append. -/
theorem exists_mem_append_left {α : Type} {P : α → Prop} {l1 l2 : List α}
    (h : ∃ x ∈ l1, P x) : ∃ x ∈ l1 ++ l2, P x := by
  obtain ⟨x, hx, hp⟩ := h
  exact ⟨x, List.mem_append_left _ hx, hp⟩

/-- Push an existential through the right part of an append. -/
theorem exists_mem_append_right {α : Type} {P : α → Prop} {l1 l2 : List α}
    (h : ∃ x ∈ l2, P x) : ∃ x ∈ l1 ++ l2, P x := by
  obtain ⟨x, hx, hp⟩ := h
  exact ⟨x, List.mem_append_right _ hx, hp⟩

/-- An existential over a singleton list. -/
theorem exists_mem_singleton {α : Type} {P : α → Prop} {a : α} (h : P a) :
    ∃ x ∈ [a], P x := ⟨a, List.mem_singleton_self a, h⟩

/-- `max?` of a nonempty constant list. -/
theorem max?_of_all_eq {l : List ℚ} {c : ℚ} (hne : l ≠ [])
    (h : ∀ x ∈ l, x = c) : l.max? = some c := by
  cases l with
  | nil => exact absurd rfl hne
  | cons a t =>
    have hfold : ∀ (t' : List ℚ) (acc : ℚ), acc = c → (∀ x ∈ t', x = c) →
        t'.foldl max acc = c := by
      intro t'
      induction t' with
      | nil => intro acc hacc _; exact hacc
      | cons b t'' ih =>
        intro acc hacc hall
        have hb : b = c := hall b (List.mem_cons_self b t'')
        simp only [List.foldl_cons]
        exact ih (max acc b) (by rw [hacc, hb, max_self])
          (fun x hx => hall x (List.mem_cons_of_mem b hx))
    have ha : a = c := h a (List.mem_cons_self a t)
    show some (t.foldl max a) = some c
    rw [hfold t a ha (fun x hx => h x (List.mem_cons_of_mem a hx))]

/-- `min?` of a nonempty constant list. -/
theorem min?_of_all_eq {l : List ℚ} {c : ℚ} (hne : l ≠ [])
    (h : ∀ x ∈ l, x = c) : l.min? = some c := by
  cases l with
  | nil => exact absurd rfl hne
  | cons a t =>
    have hfold : ∀ (t' : List ℚ) (acc : ℚ), acc = c → (∀ x ∈ t', x = c) →
        t'.foldl min acc = c := by
      intro t'
      induction t' with
      | nil => intro acc hacc _; exact hacc
      | cons b t'' ih =>
        intro acc hacc hall
        have hb : b = c := hall b (List.mem_cons_self b t'')
        simp only [List.foldl_cons]
        exact ih (min acc b) (by rw [hacc, hb, min_self])
          (fun x hx => hall x (List.mem_cons_of_mem b hx))
    have ha : a = c := h a (List.mem_cons_self a t)
    show some (t.foldl min a) = some c
    rw [hfold t a ha (fun x hx => h x (List.mem_cons_of_mem a hx))]

/-- C10: for a metric whose prepared series has at least 3 points, all
equal, the milestone generator emits both the new-high and the new-low
insight for that metric (the latest value equals both the maximum and the
minimum of the 12-point window). -/
theorem claim_c10 (periods : List Period) (options : InsightsOptions)
    (tolerances : List ToleranceBand) (now m : ℕ) (c : ℚ)
    (hm : m ∈ metricNumbersOf options)
    (hlen : 3 ≤ (prepareMetricTimeSeries periods m).length)
    (hconst : ∀ pt ∈ prepareMetricTimeSeries periods m, pt.value = c) :
    (∃ i ∈ generateMilestoneInsights periods options tolerances now,
      i.id = .gen .milestone m (some .newHigh) now) ∧
    (∃ i ∈ generateMilestoneInsights periods options tolerances now,
      i.id = .gen .milestone m (some .newLow) now) := by
  set series := prepareMetricTimeSeries periods m with hseries
  set tol := tolerances.find? (fun t => t.metricNumber == m) with htol
  have h2 : ¬(series.length < 2) := by omega
  have hrecent : (series.getD (series.length - 1) default).value = c := by
    have hlt : series.length - 1 < series.length := by omega
    rw [List.getD_eq_getElem _ _ hlt]
    exact hconst _ (List.getElem_mem hlt)
  have hl12 : ∀ x ∈ ((if 12 ≤ series.length then series.drop (series.length - 12)
      else series).map (fun v => v.value)), x = c := by
    intro x hx
    simp only [List.mem_map] at hx
    obtain ⟨pt, hpt, rfl⟩ := hx
    split at hpt
    · exact hconst pt (List.mem_of_mem_drop hpt)
    · exact hconst pt hpt
  have hl12ne : ((if 12 ≤ series.length then series.drop (series.length - 12)
      else series).map (fun v => v.value)) ≠ [] := by
    split
    · simp only [ne_eq, List.map_eq_nil_iff, List.drop_eq_nil_iff]
      omega
    · simp only [ne_eq, List.map_eq_nil_iff]
      intro hnil
      rw [hnil] at hlen
      simp at hlen
  have hmax := max?_of_all_eq hl12ne hl12
  have hmin := min?_of_all_eq hl12ne hl12
  have hcondH : (series.getD (series.length - 1) default).value =
      ((if 12 ≤ series.length then series.drop (series.length - 12)
        else series).map (fun v => v.value)).max?.getD 0 ∧ 3 ≤ series.length := by
    rw [hmax, hrecent]
    exact ⟨rfl, hlen⟩
  have hcondL : (series.getD (series.length - 1) default).value =
      ((if 12 ≤ series.length then series.drop (series.length - 12)
        else series).map (fun v => v.value)).min?.getD 0 ∧ 3 ≤ series.length := by
    rw [hmin, hrecent]
    exact ⟨rfl, hlen⟩
  constructor
  · have hsub : ∃ i ∈ milestonePerMetric series tol m now,
        i.id = InsightId.gen .milestone m (some .newHigh) now := by
      simp only [milestonePerMetric]
      rw [if_neg h2, if_pos hcondH]
      exact exists_mem_append_left (exists_mem_append_left
        (exists_mem_append_left (exists_mem_singleton rfl)))
    obtain ⟨i, hi, hid⟩ := hsub
    exact ⟨i, List.mem_flatMap.mpr ⟨m, hm, hi⟩, hid⟩
  · have hsub : ∃ i ∈ milestonePerMetric series tol m now,
        i.id = InsightId.gen .milestone m (some .newLow) now := by
      simp only [milestonePerMetric]
      rw [if_neg h2, if_pos hcondL]
      exact exists_mem_append_left (exists_mem_append_left
        (exists_mem_append_right (exists_mem_singleton rfl)))
    obtain ⟨i, hi, hid⟩ := hsub
    exact ⟨i, List.mem_flatMap.mpr ⟨m, hm, hi⟩, hid⟩

/-- Witness for C10: three periods with the constant metric-1 value `7`
produce both the new-high and new-low milestone insights. -/
theorem claim_c10_witness :
    (∃ i ∈ generateMilestoneInsights wPeriodsConst wOptsM1 [] 0,
      i.id = InsightId.gen .milestone 1 (some .newHigh) 0) ∧
    (∃ i ∈ generateMilestoneInsights wPeriodsConst wOptsM1 [] 0,
      i.id = InsightId.gen .milestone 1 (some .newLow) 0) :=
  claim_c10 wPeriodsConst wOptsM1 [] 0 1 7 (by decide) (by decide) (by decide)


/-- The IQR path emits only when the accumulated list has no z-score
insight with this metric's z-score id. -/
theorem anomalyIqrPart_dedup (series : List SeriesPoint) (isLowerBetter : Bool)
    (metricNumber now : ℕ) (insights : List Insight) :
    ∀ i ∈ anomalyIqrPart series isLowerBetter metricNumber now insights,
      (insights.find? (fun x =>
        x.id == InsightId.gen .anomaly metricNumber (some .zscore) now)).isSome = false := by
  intro i hi
  unfold anomalyIqrPart at hi
  repeat' split at hi
  all_goals
    first
      | (rename_i hfind; simpa using hfind)
      | simp at hi

/-- One metric iteration preserves the anomaly invariant. -/
theorem anomalyStep_inv (periods : List Period) (tolerances : List ToleranceBand)
    (now : ℕ) (acc : List Insight) (m' : ℕ)
    (hP : AnomalyInv periods tolerances now acc) :
    AnomalyInv periods tolerances now (anomalyStep periods tolerances now acc m') := by
  intro m
  unfold anomalyStep
  split
  · exact hP m
  · constructor
    · intro hmem
      simp only [List.map_append, List.mem_append] at hmem
      rcases hmem with (hmem | hmem) | hmem
      · exact (hP m).1 hmem
      · simp only [List.mem_map] at hmem
        obtain ⟨i, hi, hid⟩ := hmem
        obtain ⟨-, -, hid2⟩ := anomalyZPart_fields _ _ _ _ i hi
        rw [hid2] at hid
        obtain ⟨-, rfl, -, -⟩ := InsightId.gen.inj hid
        intro hnil
        rw [hnil] at hi
        exact absurd hi (List.not_mem_nil i)
      · simp only [List.mem_map] at hmem
        obtain ⟨i, hi, hid⟩ := hmem
        obtain ⟨-, -, hid2⟩ := anomalyIqrPart_fields _ _ _ _ _ i hi
        rw [hid2] at hid
        obtain ⟨-, -, hsfx, -⟩ := InsightId.gen.inj hid
        exact absurd hsfx (by decide)
    · intro hmem
      simp only [List.map_append, List.mem_append] at hmem
      rcases hmem with (hmem | hmem) | hmem
      · exact (hP m).2 hmem
      · simp only [List.mem_map] at hmem
        obtain ⟨i, hi, hid⟩ := hmem
        obtain ⟨-, -, hid2⟩ := anomalyZPart_fields _ _ _ _ i hi
        rw [hid2] at hid
        obtain ⟨-, -, hsfx, -⟩ := InsightId.gen.inj hid
        exact absurd hsfx (by decide)
      · simp only [List.mem_map] at hmem
        obtain ⟨i, hi, hid⟩ := hmem
        have hdedup := anomalyIqrPart_dedup _ _ _ _ _ i hi
        obtain ⟨-, -, hid2⟩ := anomalyIqrPart_fields _ _ _ _ _ i hi
        rw [hid2] at hid
        obtain ⟨-, rfl, -, -⟩ := InsightId.gen.inj hid
        by_contra hne
        obtain ⟨j, hj⟩ := List.exists_mem_of_ne_nil _ hne
        obtain ⟨-, -, hjid⟩ := anomalyZPart_fields _ _ _ _ j hj
        have hsome : ((acc ++ anomalyZPart (prepareMetricTimeSeries periods m')
            (isLowerBetterOf tolerances m') m' now).find? (fun x =>
              x.id == InsightId.gen .anomaly m' (some .zscore) now)).isSome = true := by
          rw [List.find?_isSome]
          exact ⟨j, List.mem_append_right _ hj, by simp [hjid]⟩
        rw [hdedup] at hsome
        exact Bool.false_ne_true hsome

/-- The anomaly invariant holds for the whole metric loop. -/
theorem anomaly_foldl_inv (periods : List Period) (tolerances : List ToleranceBand)
    (now : ℕ) (ms : List ℕ) (acc : List Insight)
    (hP : AnomalyInv periods tolerances now acc) :
    AnomalyInv periods tolerances now
      (ms.foldl (anomalyStep periods tolerances now) acc) := by
  induction ms generalizing acc with
  | nil => exact hP
  | cons m rest ih =>
    exact ih _ (anomalyStep_inv periods tolerances now acc m hP)

/-- C3: within one invocation of the anomaly generator, if the z-score path
produced an insight for a metric, the IQR path emits no second insight for
that metric in the same invocation (dedup by insight-id equality; ids embed
the type, metric number, suffix and the invocation timestamp). -/
theorem claim_c3 (periods : List Period) (options : InsightsOptions)
    (tolerances : List ToleranceBand) (now m : ℕ)
    (h : InsightId.gen .anomaly m (some .zscore) now ∈
      (generateAnomalyInsights periods options tolerances now).map (fun i => i.id)) :
    InsightId.gen .anomaly m (some .iqr) now ∉
      (generateAnomalyInsights periods options tolerances now).map (fun i => i.id) := by
  intro hiqr
  have hinv := anomaly_foldl_inv periods tolerances now (metricNumbersOf options) []
    (fun m => ⟨fun hx => by simp at hx, fun hx => by simp at hx⟩)
  have h1 := (hinv m).1 h
  have h2 := (hinv m).2 hiqr
  exact h1 h2

set_option maxHeartbeats 2000000 in
/-- Witness for C3: six months of values `10,12,10,12,10,0` (higher is
better) emit a z-score anomaly insight, so the IQR id is absent even though
the IQR bound is also violated. -/
theorem claim_c3_witness :
    InsightId.gen .anomaly 1 (some .iqr) 0 ∉
      (generateAnomalyInsights wPeriodsLow wOptsM1 [] 0).map (fun i => i.id) := by
  apply claim_c3 wPeriodsLow wOptsM1 [] 0 1
  have hprep : prepareMetricTimeSeries wPeriodsLow 1 =
      [⟨⟨2024, 1⟩, 10, 0⟩, ⟨⟨2024, 2⟩, 12, 1⟩, ⟨⟨2024, 3⟩, 10, 2⟩,
       ⟨⟨2024, 4⟩, 12, 3⟩, ⟨⟨2024, 5⟩, 10, 4⟩, ⟨⟨2024, 6⟩, 0, 5⟩] := by
    norm_num [prepareMetricTimeSeries, sortAsc, List.insertionSort,
      List.orderedInsert, wPeriodsLow, wPeriod1, dateLEP, monthOf, List.find?,
      List.filterMap_cons, List.filterMap_nil]
  simp only [generateAnomalyInsights, wOptsM1, metricNumbersOf, Option.getD,
    List.foldl, anomalyStep, hprep]
  norm_num [anomalyZPart, anomalyIqrPart, isLowerBetterOf, zLtNegTwoB, zGtTwoB,
    zAbsGtTwoB, zAbsGtThreeB, stdDevSq, mean, quartiles, medianSorted,
    List.insertionSort, List.orderedInsert, List.find?]

/-- Characterisation of the month-over-month trend insight: it is emitted
only when the series has ≥ 2 points and `|momChange| > 5`, and its evidence
carries exactly that percentage change. -/
theorem trendPerMetric_mom (series : List SeriesPoint) (mn now : ℕ) (i : Insight)
    (hi : i ∈ trendPerMetric series mn now)
    (hid : i.id = InsightId.gen .trend mn (some .mom) now) :
    2 ≤ series.length ∧
    i.evidence = some ⟨[((series.getD (series.length - 2) default).month,
        (series.getD (series.length - 2) default).value),
      ((series.getD (series.length - 1) default).month,
        (series.getD (series.length - 1) default).value)],
      some (((series.getD (series.length - 1) default).value -
        (series.getD (series.length - 2) default).value) /
        (series.getD (series.length - 2) default).value * 100)⟩ ∧
    5 < |((series.getD (series.length - 1) default).value -
        (series.getD (series.length - 2) default).value) /
        (series.getD (series.length - 2) default).value * 100| := by
  unfold trendPerMetric at hi
  split at hi
  case isTrue => exact absurd hi (List.not_mem_nil i)
  case isFalse h2 =>
  simp only [List.mem_append] at hi
  rcases hi with hi | hi
  · split at hi
    case isTrue hcond =>
      simp only [List.mem_singleton] at hi
      subst hi
      exact ⟨by omega, rfl, hcond⟩
    case isFalse => exact absurd hi (List.not_mem_nil i)
  · exfalso
    split at hi
    case isFalse => exact absurd hi (List.not_mem_nil i)
    case isTrue =>
    simp only [List.mem_append] at hi
    rcases hi with hi | hi
    all_goals repeat' split at hi
    all_goals try simp only [List.mem_singleton, List.not_mem_nil] at hi
    all_goals first
      | exact hi.elim
      | (subst hi; simp at hid)

/-- The two leaderboard insights carry the leaderboard ids. -/
theorem trendLeaderboard_ids (periods : List Period) (metricNumbers : List ℕ)
    (now : ℕ) : ∀ i ∈ trendLeaderboard periods metricNumbers now,
      i.id = InsightId.gen .trend 0 (some .topImproving) now ∨
      i.id = InsightId.gen .trend 0 (some .topDegrading) now := by
  intro i hi
  unfold trendLeaderboard at hi
  repeat' split at hi
  all_goals try simp only [List.mem_append, List.not_mem_nil, or_false,
    false_or] at hi
  all_goals try rcases hi with hi | hi
  all_goals repeat' split at hi
  all_goals try simp only [List.mem_append, List.mem_singleton,
    List.not_mem_nil, or_false, false_or] at hi
  all_goals try rcases hi with hi | hi
  all_goals first
    | exact hi.elim
    | (subst hi; exact Or.inl rfl)
    | (subst hi; exact Or.inr rfl)
    | exact Or.inl rfl
    | exact Or.inr rfl

/-- Adjacent values of a `≤`-chained list are ordered. -/
theorem chain'_le_getD {l : List ℚ} (h : List.Chain' (· ≤ ·) l) (k : ℕ)
    (hk : k + 1 < l.length) : l.getD k 0 ≤ l.getD (k + 1) 0 := by
  rw [List.getD_eq_getElem _ _ (by omega), List.getD_eq_getElem _ _ hk]
  have := List.chain'_iff_get.mp h k (by omega)
  simpa using this

/-- C6 amended: for a metric whose prepared series is monotonically
non-decreasing and whose second-to-last value is positive, an emitted
month-over-month trend insight reports a positive percentage change.  (The
positivity premise is necessary: see the counterexample.) -/
theorem claim_c6_amended (periods : List Period) (options : InsightsOptions)
    (now m : ℕ)
    (hmono : List.Chain' (· ≤ ·)
      ((prepareMetricTimeSeries periods m).map (fun pt => pt.value)))
    (hpos : 0 < ((prepareMetricTimeSeries periods m).getD
      ((prepareMetricTimeSeries periods m).length - 2) default).value) :
    ∀ i ∈ generateTrendInsights periods options now,
      i.id = InsightId.gen .trend m (some .mom) now →
      ∀ e cp, i.evidence = some e → e.changePct = some cp → 0 < cp := by
  intro i hi hid e cp hev hcp
  simp only [generateTrendInsights, List.mem_append, List.mem_flatMap] at hi
  rcases hi with ⟨m', hm', hi⟩ | hi
  · have hids := (trendPerMetric_fields _ _ _ i hi).1
    have hmm : m' = m := by
      obtain ⟨ht, hk, -⟩ := trendPerMetric_fields _ _ _ i hi
      by_contra hne
      -- the per-metric block ids all carry metric m'
      have : i.id = InsightId.gen .trend m (some .mom) now := hid
      -- derive the block id from the mom characterisation attempt
      -- every id in trendPerMetric has metric number m'
      have hminj : ∀ j ∈ trendPerMetric (prepareMetricTimeSeries periods m') m' now,
          ∀ t sfx ts, j.id = InsightId.gen t m (some sfx) ts → m' = m := by
        intro j hj t sfx ts hjid
        unfold trendPerMetric at hj
        repeat' split at hj
        all_goals try simp only [List.mem_append, List.not_mem_nil, or_false,
          false_or] at hj
        all_goals try rcases hj with hj | hj
        all_goals repeat' split at hj
        all_goals try simp only [List.mem_append, List.mem_singleton,
          List.not_mem_nil, or_false, false_or] at hj
        all_goals try rcases hj with hj | hj
        all_goals first
          | exact hj.elim
          | (subst hj; exact (InsightId.gen.inj hjid).2.1)
          | exact (InsightId.gen.inj hjid).2.1
      exact hne (hminj i hi .trend .mom now hid)
    subst hmm
    obtain ⟨h2, hev2, habs⟩ := trendPerMetric_mom _ _ _ i hi hid
    rw [hev2] at hev
    obtain rfl := Option.some.inj hev
    simp only at hcp
    obtain rfl := Option.some.inj hcp
    set s := prepareMetricTimeSeries periods m' with hs
    set p := (s.getD (s.length - 2) default).value with hp
    set r := (s.getD (s.length - 1) default).value with hr
    have hple : p ≤ r := by
      have hlen : (s.length - 2) + 1 < (s.map (fun pt => pt.value)).length := by
        rw [List.length_map]; omega
      have := chain'_le_getD hmono (s.length - 2) hlen
      have e1 : (s.map (fun pt => pt.value)).getD (s.length - 2) 0 = p := by
        rw [List.getD_eq_getElem _ _ (by rw [List.length_map]; omega)]
        rw [List.getElem_map]
        rw [hp, List.getD_eq_getElem _ _ (by omega)]
      have e2 : (s.map (fun pt => pt.value)).getD (s.length - 2 + 1) 0 = r := by
        rw [List.getD_eq_getElem _ _ (by rw [List.length_map]; omega)]
        rw [List.getElem_map]
        rw [hr, List.getD_eq_getElem _ _ (by omega)]
        congr 2
        omega
      rw [e1, e2] at this
      exact this
    rcases eq_or_lt_of_le hple with heq | hlt
    · exfalso
      rw [heq, sub_self, zero_div, zero_mul, abs_zero] at habs
      linarith
    · have h1 : 0 < (r - p) / p := div_pos (by linarith) hpos
      have : (0 : ℚ) < (r - p) / p * 100 := by
        have h100 : (0 : ℚ) < 100 := by norm_num
        exact mul_pos h1 h100
      exact this
  · rcases trendLeaderboard_ids _ _ _ i hi with hlid | hlid <;>
      rw [hlid] at hid <;> exact absurd (InsightId.gen.inj hid).2.2.1 (by decide)

set_option maxHeartbeats 1000000 in
/-- Counterexample to C6 as stated: the monotonically increasing series
`-10, -2` produces a month-over-month trend insight whose reported change
percentage is `-80`, which is negative — the sign of the percentage follows
the sign of the previous value. -/
theorem claim_c6_counterexample :
    List.Chain' (· ≤ ·)
      ((prepareMetricTimeSeries wPeriodsNeg 1).map (fun pt => pt.value)) ∧
    ∃ i ∈ generateTrendInsights wPeriodsNeg wOptsM1 0,
      i.id = InsightId.gen .trend 1 (some .mom) 0 ∧
      ∃ e, i.evidence = some e ∧ e.changePct = some (-80) ∧ ((-80 : ℚ) < 0) := by
  have hprep : prepareMetricTimeSeries wPeriodsNeg 1 =
      [⟨⟨2024, 1⟩, -10, 0⟩, ⟨⟨2024, 2⟩, -2, 1⟩] := by
    norm_num [prepareMetricTimeSeries, sortAsc, List.insertionSort,
      List.orderedInsert, wPeriodsNeg, wPeriod1, dateLEP, monthOf, List.find?,
      List.filterMap_cons, List.filterMap_nil]
  constructor
  · rw [hprep]
    norm_num
  · simp only [generateTrendInsights, wOptsM1, metricNumbersOf, Option.getD,
      List.flatMap_cons, List.flatMap_nil, hprep]
    norm_num [trendPerMetric, trendLeaderboard, wPeriodsNeg]

/-- Witness for the amended C6: on the increasing positive series `80, 85`
any emitted month-over-month insight reports a positive change. -/
theorem claim_c6_witness :
    (generateTrendInsights wPeriodsTwo wOptsM1 0).all (fun i =>
      !(i.id == InsightId.gen .trend 1 (some .mom) 0) ||
        i.evidence.elim true (fun e =>
          e.changePct.elim true (fun cp => decide (0 < cp)))) = true := by
  have hmain := claim_c6_amended wPeriodsTwo wOptsM1 0 1
    (by norm_num [prepareMetricTimeSeries, sortAsc, List.insertionSort,
      List.orderedInsert, wPeriodsTwo, wPeriod1, dateLEP, monthOf, List.find?,
      List.filterMap_cons, List.filterMap_nil])
    (by norm_num [prepareMetricTimeSeries, sortAsc, List.insertionSort,
      List.orderedInsert, wPeriodsTwo, wPeriod1, dateLEP, monthOf, List.find?,
      List.filterMap_cons, List.filterMap_nil])
  rw [List.all_eq_true]
  intro i hi
  cases hbeq : (i.id == InsightId.gen .trend 1 (some .mom) 0) with
  | false => rfl
  | true =>
    have hid : i.id = InsightId.gen .trend 1 (some .mom) 0 := by simpa using hbeq
    have h2 := hmain i hi hid
    simp only [Bool.not_true, Bool.false_or]
    cases he : i.evidence with
    | none => rfl
    | some e =>
      show e.changePct.elim true (fun cp => decide (0 < cp)) = true
      cases hcp : e.changePct with
      | none => rfl
      | some cp =>
        show decide (0 < cp) = true
        exact decide_eq_true (h2 e cp he hcp)

/-- C2 amended, the guarded part: a zero standard deviation yields z-score 0
(and neither z-score comparison fires), and a zero Pearson denominator
yields r = 0.  (The trend and comparison percentage-change divisions are
not guarded; see the counterexample.) -/
theorem claim_c2_amended (values : List ℚ) (v : ℚ) (x y : List ℚ) :
    (stdDevSq values = 0 →
      zScoreSq v values = 0 ∧ zGtTwoB v values = false ∧
        zLtNegTwoB v values = false) ∧
    (pearsonDenomSq x y = 0 → pearsonRSq x y = 0 ∧ pearsonSign x y = 0) := by
  constructor
  · intro h
    refine ⟨by simp [zScoreSq, h], by simp [zGtTwoB, h], by simp [zLtNegTwoB, h]⟩
  · intro h
    unfold pearsonRSq pearsonSign
    by_cases hg : x.length ≠ y.length ∨ x.length < 2
    · simp [hg]
    · simp [hg, h]

/-- Counterexample to C2 as stated: with metric values `0` then `5`, the
previous value `0` is used as a division denominator by both the trend
generator's month-over-month computation and the comparison generator's
month-over-month computation — neither site is guarded. -/
theorem claim_c2_counterexample :
    (0 : ℚ) ∈ trendDenominators wPeriodsZero wOptsM1 ∧
    (0 : ℚ) ∈ comparisonDenominators wPeriodsZero wOptsM1 := by
  constructor
  · norm_num [trendDenominators, metricNumbersOf, wOptsM1, prepareMetricTimeSeries,
      sortAsc, List.insertionSort, List.orderedInsert, wPeriodsZero, wPeriod1,
      dateLEP, monthOf, List.find?, List.filterMap_cons, List.filterMap_nil]
  · norm_num [comparisonDenominators, metricNumbersOf, wOptsM1, sortDesc,
      List.insertionSort, List.orderedInsert, wPeriodsZero, wPeriod1, dateLEP,
      jsSetFullYear, daysInMonth, isLeapYear, List.find?]

/-- Witness for the amended C2, at concrete inputs with zero standard
deviation and zero Pearson denominator. -/
theorem claim_c2_witness :
    (zScoreSq 5 [1, 1] = 0 ∧ zGtTwoB 5 [1, 1] = false ∧
      zLtNegTwoB 5 [1, 1] = false) ∧
    (pearsonRSq [2, 2] [3, 4] = 0 ∧ pearsonSign [2, 2] [3, 4] = 0) :=
  ⟨(claim_c2_amended [1, 1] 5 [2, 2] [3, 4]).1 (by norm_num [stdDevSq, mean]),
   (claim_c2_amended [1, 1] 5 [2, 2] [3, 4]).2 (by norm_num [pearsonDenomSq, mean])⟩

/-- Counterexample to C4 as stated: the most recent start date 2024-05-31
has day 31, so the code's `setMonth(month-3)` overflows Feb 31 into
March 3 and `setDate(1)` lands on 2024-03-01, not the claimed 2024-02-01;
the finalised period starting 2024-02-15 is dropped, and `generateInsights`
returns the placeholder although, per the claim's cutoff, one finalised
period should have remained. -/
theorem claim_c4_counterexample :
    timeRangeFiltered [wPeriodC4A, wPeriodC4B] wOptsC4 ≠
      [wPeriodC4A, wPeriodC4B].filter (fun p =>
        decide (dateLEP (claimC4Cutoff ⟨2024, 4, 31⟩ 3) p.startDate)) ∧
    cutoffDate ⟨2024, 4, 31⟩ 3 = ⟨2024, 2, 1⟩ ∧
    claimC4Cutoff ⟨2024, 4, 31⟩ 3 = ⟨2024, 1, 1⟩ ∧
    generateInsights [wPeriodC4A, wPeriodC4B] [] wOptsC4 0 = [noDataInsight] := by
  refine ⟨by decide, by decide, by decide, ?_⟩
  exact generateInsights_of_empty _ _ _ _ (by decide)

/-- C4 amended: with a positive `timeRange`, the orchestrator retains
exactly the periods starting on or after the cutoff, where the cutoff is
the most recent start date over all supplied periods (before the
finalisation filter) with its month decremented by `timeRange` under
JavaScript `setMonth` semantics (day-of-month overflow rolls one month
forward) and the day then set to 1; if no finalised period remains, the
single `no-data` placeholder is returned and no generator runs. -/
theorem claim_c4_amended (periods : List Period) (tolerances : List ToleranceBand)
    (options : InsightsOptions) (now : ℕ) (t : ℤ) (mostRecent : Period)
    (rest : List Period) (htr : options.timeRange = some t) (ht : 0 < t)
    (hsort : sortDesc periods = mostRecent :: rest) :
    (∀ p ∈ periods, dateLEP p.startDate mostRecent.startDate) ∧
    timeRangeFiltered periods options = periods.filter (fun p =>
      decide (dateLEP (cutoffDate mostRecent.startDate t) p.startDate)) ∧
    (finalFiltered periods options = [] →
      generateInsights periods tolerances options now = [noDataInsight]) := by
  haveI hTot : IsTotal Period (fun a b => dateLEP b.startDate a.startDate) :=
    ⟨fun a b => (IsTotal.total (r := dateLEP) a.startDate b.startDate).symm⟩
  haveI hTrans : IsTrans Period (fun a b => dateLEP b.startDate a.startDate) :=
    ⟨fun a b c hab hbc => IsTrans.trans (r := dateLEP)
      c.startDate b.startDate a.startDate hbc hab⟩
  refine ⟨?_, ?_, fun h => generateInsights_of_empty _ _ _ _ h⟩
  · intro p hp
    have hsorted : List.Sorted (fun a b => dateLEP b.startDate a.startDate)
        (sortDesc periods) := List.sorted_insertionSort
      (fun a b => dateLEP b.startDate a.startDate) periods
    have hmem : p ∈ sortDesc periods :=
      ((List.perm_insertionSort _ periods).symm.mem_iff).mp hp
    rw [hsort] at hmem hsorted
    rcases List.mem_cons.mp hmem with rfl | hmem2
    · unfold dateLEP; omega
    · exact (List.sorted_cons.mp hsorted).1 p hmem2
  · unfold timeRangeFiltered
    rw [htr]
    simp only [if_pos ht, hsort]

/-- Witness for the amended C4 at a concrete two-period input. -/
theorem claim_c4_witness :
    (∀ p ∈ [wPeriodC4A, wPeriodC4B], dateLEP p.startDate wPeriodC4A.startDate) ∧
    timeRangeFiltered [wPeriodC4A, wPeriodC4B] wOptsC4 =
      [wPeriodC4A, wPeriodC4B].filter (fun p =>
        decide (dateLEP (cutoffDate wPeriodC4A.startDate 3) p.startDate)) ∧
    (finalFiltered [wPeriodC4A, wPeriodC4B] wOptsC4 = [] →
      generateInsights [wPeriodC4A, wPeriodC4B] [] wOptsC4 0 = [noDataInsight]) :=
  claim_c4_amended [wPeriodC4A, wPeriodC4B] [] wOptsC4 0 3 wPeriodC4A [wPeriodC4B]
    rfl (by decide) (by decide)

/-- The source's inline median computation agrees with the spec's median
rule on every list. -/
theorem medianSorted_eq_claimMedian (l : List ℚ) :
    medianSorted l = claimMedian l := by
  unfold medianSorted claimMedian
  by_cases hp : l.length % 2 = 0
  · rw [if_pos hp]
    have hidx : l.length / 2 - 1 = (l.length - 1) / 2 := by omega
    rw [hidx]
  · rw [if_neg hp]
    have hidx : (l.length - 1) / 2 = l.length / 2 := by omega
    rw [hidx]
    ring

/-- C8: `quartiles` computes Q2 as the median of the sorted values, Q1 as
the median of the lower half and Q3 as the median of the upper half, the
halves excluding the overall median element for odd lengths, with the
median of an even-length (sub-)array the average of its two central
values. -/
theorem claim_c8 (values : List ℚ) (h : 2 ≤ values.length) :
    quartiles values = claimQuartiles values := by
  unfold quartiles claimQuartiles
  simp only
  have hdrop : ((values.insertionSort (· ≤ ·)).length + 1) / 2 =
      (if (values.insertionSort (· ≤ ·)).length % 2 = 0 then
        (values.insertionSort (· ≤ ·)).length / 2
      else (values.insertionSort (· ≤ ·)).length / 2 + 1) := by
    by_cases hp : (values.insertionSort (· ≤ ·)).length % 2 = 0
    · rw [if_pos hp]; omega
    · rw [if_neg hp]; omega
  rw [hdrop, apply_ite (fun k => (values.insertionSort (· ≤ ·)).drop k),
    medianSorted_eq_claimMedian, medianSorted_eq_claimMedian,
    medianSorted_eq_claimMedian]

/-- Witness for C8 at a concrete list. -/
theorem claim_c8_witness :
    2 ≤ ([3, 1, 2, 5] : List ℚ).length ∧
      quartiles [3, 1, 2, 5] = claimQuartiles [3, 1, 2, 5] :=
  ⟨by norm_num, claim_c8 [3, 1, 2, 5] (by norm_num)⟩

/-- With pairwise-distinct start dates, any two permuted period lists sort
ascending to the same list. -/
theorem sortAsc_eq_of_perm (p1 p2 : List Period) (hperm : p1.Perm p2)
    (hnodup : (p1.map (fun p => p.startDate)).Nodup) :
    sortAsc p1 = sortAsc p2 := by
  have hne1 : List.Pairwise (fun a b : Period => a.startDate ≠ b.startDate) p1 :=
    List.pairwise_map.mp hnodup
  have hperm1 : sortAsc p1 |>.Perm p1 := List.perm_insertionSort _ p1
  have hperm2 : sortAsc p2 |>.Perm p2 := List.perm_insertionSort _ p2
  have hne1s : List.Pairwise (fun a b : Period => a.startDate ≠ b.startDate)
      (sortAsc p1) := (hperm1.pairwise_iff (fun h => Ne.symm h)).mpr hne1
  have hne2s : List.Pairwise (fun a b : Period => a.startDate ≠ b.startDate)
      (sortAsc p2) :=
    (hperm2.pairwise_iff (fun h => Ne.symm h)).mpr ((hperm.pairwise_iff (fun h => Ne.symm h)).mp hne1)
  have hs1 : List.Sorted (fun a b : Period => dateLEP a.startDate b.startDate)
      (sortAsc p1) := List.sorted_insertionSort _ p1
  have hs2 : List.Sorted (fun a b : Period => dateLEP a.startDate b.startDate)
      (sortAsc p2) := List.sorted_insertionSort _ p2
  haveI : IsAntisymm Period (fun a b : Period =>
      dateLEP a.startDate b.startDate ∧ a.startDate ≠ b.startDate) :=
    ⟨fun a b h1 h2 => by
      exfalso
      apply h1.2
      have d1 := h1.1
      have d2 := h2.1
      unfold dateLEP at d1 d2
      have hy : a.startDate.year = b.startDate.year := by omega
      have hm : a.startDate.month0 = b.startDate.month0 := by omega
      have hd : a.startDate.day = b.startDate.day := by omega
      show a.startDate = b.startDate
      have e1 : a.startDate = ⟨a.startDate.year, a.startDate.month0,
        a.startDate.day⟩ := rfl
      have e2 : b.startDate = ⟨b.startDate.year, b.startDate.month0,
        b.startDate.day⟩ := rfl
      rw [e1, e2, hy, hm, hd]⟩
  exact List.eq_of_perm_of_sorted
    ((hperm1.trans hperm).trans hperm2.symm)
    (hs1.and hne1s) (hs2.and hne2s)

/-- With pairwise-distinct start dates, any two permuted period lists sort
descending to the same list. -/
theorem sortDesc_eq_of_perm (p1 p2 : List Period) (hperm : p1.Perm p2)
    (hnodup : (p1.map (fun p => p.startDate)).Nodup) :
    sortDesc p1 = sortDesc p2 := by
  have hne1 : List.Pairwise (fun a b : Period => a.startDate ≠ b.startDate) p1 :=
    List.pairwise_map.mp hnodup
  have hperm1 : sortDesc p1 |>.Perm p1 := List.perm_insertionSort _ p1
  have hperm2 : sortDesc p2 |>.Perm p2 := List.perm_insertionSort _ p2
  have hne1s : List.Pairwise (fun a b : Period => a.startDate ≠ b.startDate)
      (sortDesc p1) := (hperm1.pairwise_iff (fun h => Ne.symm h)).mpr hne1
  have hne2s : List.Pairwise (fun a b : Period => a.startDate ≠ b.startDate)
      (sortDesc p2) :=
    (hperm2.pairwise_iff (fun h => Ne.symm h)).mpr ((hperm.pairwise_iff (fun h => Ne.symm h)).mp hne1)
  have hs1 : List.Sorted (fun a b : Period => dateLEP b.startDate a.startDate)
      (sortDesc p1) := List.sorted_insertionSort _ p1
  have hs2 : List.Sorted (fun a b : Period => dateLEP b.startDate a.startDate)
      (sortDesc p2) := List.sorted_insertionSort _ p2
  haveI : IsAntisymm Period (fun a b : Period =>
      dateLEP b.startDate a.startDate ∧ a.startDate ≠ b.startDate) :=
    ⟨fun a b h1 h2 => by
      exfalso
      apply h1.2
      have d1 := h1.1
      have d2 := h2.1
      unfold dateLEP at d1 d2
      have hy : a.startDate.year = b.startDate.year := by omega
      have hm : a.startDate.month0 = b.startDate.month0 := by omega
      have hd : a.startDate.day = b.startDate.day := by omega
      show a.startDate = b.startDate
      have e1 : a.startDate = ⟨a.startDate.year, a.startDate.month0,
        a.startDate.day⟩ := rfl
      have e2 : b.startDate = ⟨b.startDate.year, b.startDate.month0,
        b.startDate.day⟩ := rfl
      rw [e1, e2, hy, hm, hd]⟩
  exact List.eq_of_perm_of_sorted
    ((hperm1.trans hperm).trans hperm2.symm)
    (hs1.and hne1s) (hs2.and hne2s)

/-- With distinct start dates, the prepared time series is permutation
invariant. -/
theorem prepare_eq_of_perm (p1 p2 : List Period) (hperm : p1.Perm p2)
    (hnodup : (p1.map (fun p => p.startDate)).Nodup) :
    prepareMetricTimeSeries p1 = prepareMetricTimeSeries p2 := by
  funext m
  unfold prepareMetricTimeSeries
  rw [sortAsc_eq_of_perm p1 p2 hperm hnodup]

/-- Trend output is permutation invariant on distinct dates. -/
theorem trend_eq_of_perm (p1 p2 : List Period) (options : InsightsOptions)
    (now : ℕ) (hperm : p1.Perm p2)
    (hnodup : (p1.map (fun p => p.startDate)).Nodup) :
    generateTrendInsights p1 options now = generateTrendInsights p2 options now := by
  have hprep := prepare_eq_of_perm p1 p2 hperm hnodup
  have hlen := hperm.length_eq
  unfold generateTrendInsights trendLeaderboard
  rw [hprep, hlen]

/-- Anomaly output is permutation invariant on distinct dates. -/
theorem anomaly_eq_of_perm (p1 p2 : List Period) (options : InsightsOptions)
    (tolerances : List ToleranceBand) (now : ℕ) (hperm : p1.Perm p2)
    (hnodup : (p1.map (fun p => p.startDate)).Nodup) :
    generateAnomalyInsights p1 options tolerances now =
      generateAnomalyInsights p2 options tolerances now := by
  have hprep := prepare_eq_of_perm p1 p2 hperm hnodup
  have hstep : anomalyStep p1 tolerances now = anomalyStep p2 tolerances now := by
    funext acc m
    unfold anomalyStep
    rw [hprep]
  unfold generateAnomalyInsights
  rw [hstep]

/-- Milestone output is permutation invariant on distinct dates. -/
theorem milestone_eq_of_perm (p1 p2 : List Period) (options : InsightsOptions)
    (tolerances : List ToleranceBand) (now : ℕ) (hperm : p1.Perm p2)
    (hnodup : (p1.map (fun p => p.startDate)).Nodup) :
    generateMilestoneInsights p1 options tolerances now =
      generateMilestoneInsights p2 options tolerances now := by
  have hprep := prepare_eq_of_perm p1 p2 hperm hnodup
  unfold generateMilestoneInsights
  rw [hprep]

/-- Comparison output is permutation invariant on distinct dates. -/
theorem comparison_eq_of_perm (p1 p2 : List Period) (options : InsightsOptions)
    (now : ℕ) (hperm : p1.Perm p2)
    (hnodup : (p1.map (fun p => p.startDate)).Nodup) :
    generateComparisonInsights p1 options now =
      generateComparisonInsights p2 options now := by
  have hdesc := sortDesc_eq_of_perm p1 p2 hperm hnodup
  unfold generateComparisonInsights
  rw [hdesc]

/-- Forecast output is permutation invariant on distinct dates. -/
theorem forecast_eq_of_perm (p1 p2 : List Period) (options : InsightsOptions)
    (now : ℕ) (hperm : p1.Perm p2)
    (hnodup : (p1.map (fun p => p.startDate)).Nodup) :
    generateForecastInsights p1 options now =
      generateForecastInsights p2 options now := by
  have hprep := prepare_eq_of_perm p1 p2 hperm hnodup
  unfold generateForecastInsights
  rw [hprep]

/-- Correlation output is permutation invariant on distinct dates. -/
theorem correlation_eq_of_perm (p1 p2 : List Period) (options : InsightsOptions)
    (now : ℕ) (hperm : p1.Perm p2)
    (hnodup : (p1.map (fun p => p.startDate)).Nodup) :
    generateCorrelationInsights p1 options now =
      generateCorrelationInsights p2 options now := by
  have hprep := prepare_eq_of_perm p1 p2 hperm hnodup
  have halign : alignedLookup p1 = alignedLookup p2 := by
    funext m ym
    unfold alignedLookup
    rw [hprep]
  have hkeys : correlationMetricKeys p1 = correlationMetricKeys p2 := by
    funext o
    unfold correlationMetricKeys
    rw [hprep]
  have hmonths : correlationCommonMonths p1 = correlationCommonMonths p2 := by
    funext o
    unfold correlationCommonMonths
    rw [hprep, hkeys, halign]
  unfold generateCorrelationInsights
  rw [hkeys, hmonths, halign]

/-- C7: `generateInsights` does not depend on the order of the input
periods collection, provided the periods have pairwise distinct start
dates. -/
theorem claim_c7 (p1 p2 : List Period) (tolerances : List ToleranceBand)
    (options : InsightsOptions) (now : ℕ) (hperm : p1.Perm p2)
    (hnodup : (p1.map (fun p => p.startDate)).Nodup) :
    generateInsights p1 tolerances options now =
      generateInsights p2 tolerances options now := by
  have hdesc := sortDesc_eq_of_perm p1 p2 hperm hnodup
  have hfperm : (finalFiltered p1 options).Perm (finalFiltered p2 options) := by
    unfold finalFiltered timeRangeFiltered
    rcases htr : options.timeRange with - | t
    · simp only [htr]
      exact hperm.filter _
    · simp only [htr]
      by_cases ht : 0 < t
      · rw [if_pos ht, if_pos ht, hdesc]
        rcases hsd : sortDesc p2 with - | ⟨mostRecent, rest⟩
        · simp only [hsd]
          exact hperm.filter _
        · simp only [hsd]
          exact (hperm.filter _).filter _
      · rw [if_neg ht, if_neg ht]
        exact hperm.filter _
  have hfnodup : ((finalFiltered p1 options).map (fun p => p.startDate)).Nodup := by
    have hsub : (finalFiltered p1 options).Sublist p1 := by
      unfold finalFiltered timeRangeFiltered
      rcases htr : options.timeRange with - | t
      · simp only [htr]
        exact List.filter_sublist p1
      · simp only [htr]
        by_cases ht : 0 < t
        · rw [if_pos ht]
          rcases hsd : sortDesc p1 with - | ⟨mostRecent, rest⟩
          · simp only [hsd]
            exact List.filter_sublist p1
          · simp only [hsd]
            exact ((p1.filter _).filter_sublist).trans (List.filter_sublist p1)
        · rw [if_neg ht]
          exact List.filter_sublist p1
    exact (hsub.map (fun p => p.startDate)).nodup hnodup
  unfold generateInsights
  rw [hfperm.length_eq]
  by_cases hempty : (finalFiltered p2 options).length < 1
  · rw [if_pos hempty, if_pos hempty]
  · rw [if_neg hempty, if_neg hempty]
    rw [trend_eq_of_perm _ _ options now hfperm hfnodup,
      anomaly_eq_of_perm _ _ options tolerances now hfperm hfnodup,
      milestone_eq_of_perm _ _ options tolerances now hfperm hfnodup,
      comparison_eq_of_perm _ _ options now hfperm hfnodup,
      forecast_eq_of_perm _ _ options now hfperm hfnodup,
      correlation_eq_of_perm _ _ options now hfperm hfnodup]

/-- Witness for C7: reversing a concrete two-period input leaves the
output unchanged. -/
theorem claim_c7_witness :
    generateInsights [wPeriod1 0 2024 0 (some 80), wPeriod1 1 2024 1 (some 85)]
        [] wOptsM1 0 =
      generateInsights [wPeriod1 1 2024 1 (some 85), wPeriod1 0 2024 0 (some 80)]
        [] wOptsM1 0 :=
  claim_c7 _ _ [] wOptsM1 0 (by decide) (by decide)

/-- Index monotonicity of a sorted list, via `getD`. -/
theorem sorted_getD_mono {s : List ℚ} (hs : List.Sorted (· ≤ ·) s) {i j : ℕ}
    (hij : i ≤ j) (hj : j < s.length) : s.getD i 0 ≤ s.getD j 0 := by
  rw [List.getD_eq_getElem _ _ (lt_of_le_of_lt hij hj), List.getD_eq_getElem _ _ hj]
  rcases eq_or_lt_of_le hij with rfl | hlt
  · exact le_refl _
  · have := List.pairwise_iff_get.mp hs ⟨i, lt_of_le_of_lt hij hj⟩ ⟨j, hj⟩
      (Fin.mk_lt_mk.mpr hlt)
    simpa using this

/-- Every element of `s.drop k` is at least `s[k]` in a sorted list. -/
theorem sorted_drop_ge {s : List ℚ} (hs : List.Sorted (· ≤ ·) s) {k : ℕ}
    (hk : k < s.length) : ∀ x ∈ s.drop k, s.getD k 0 ≤ x := by
  intro x hx
  obtain ⟨i, hi, rfl⟩ := List.mem_iff_getElem.mp hx
  have hki : k + i < s.length := by
    have := hi
    rw [List.length_drop] at this
    omega
  have he : (s.drop k)[i] = s[k + i] := List.getElem_drop s
  rw [he, ← List.getD_eq_getElem _ 0 hki]
  exact sorted_getD_mono hs (by omega) hki

/-- Every element of `s.take (k+1)` is at most `s[k]` in a sorted list. -/
theorem sorted_take_le {s : List ℚ} (hs : List.Sorted (· ≤ ·) s) {k : ℕ}
    (hk : k < s.length) : ∀ x ∈ s.take (k + 1), x ≤ s.getD k 0 := by
  intro x hx
  obtain ⟨i, hi, rfl⟩ := List.mem_iff_getElem.mp hx
  have hik : i < k + 1 := by
    have := hi
    rw [List.length_take] at this
    omega
  have hil : i < s.length := by
    have := hi
    rw [List.length_take] at this
    omega
  have he : (s.take (k + 1))[i] = s[i] := List.getElem_take s
  rw [he, ← List.getD_eq_getElem _ 0 hil]
  exact sorted_getD_mono hs (by omega) hk

/-- The median of a sorted nonempty list is at most its last element. -/
theorem medianSorted_le_last {l : List ℚ} (hs : List.Sorted (· ≤ ·) l)
    (hne : l ≠ []) : medianSorted l ≤ l.getD (l.length - 1) 0 := by
  have hpos : 0 < l.length := List.length_pos.mpr hne
  unfold medianSorted
  by_cases hp : l.length % 2 = 0
  · rw [if_pos hp]
    have h1 : l.getD (l.length / 2 - 1) 0 ≤ l.getD (l.length - 1) 0 :=
      sorted_getD_mono hs (by omega) (by omega)
    have h2 : l.getD (l.length / 2) 0 ≤ l.getD (l.length - 1) 0 :=
      sorted_getD_mono hs (by omega) (by omega)
    linarith
  · rw [if_neg hp]
    exact sorted_getD_mono hs (by omega) (by omega)

/-- The median of a sorted nonempty list is at least its first element. -/
theorem medianSorted_ge_head {l : List ℚ} (hs : List.Sorted (· ≤ ·) l)
    (hne : l ≠ []) : l.getD 0 0 ≤ medianSorted l := by
  have hpos : 0 < l.length := List.length_pos.mpr hne
  unfold medianSorted
  by_cases hp : l.length % 2 = 0
  · rw [if_pos hp]
    have h1 : l.getD 0 0 ≤ l.getD (l.length / 2 - 1) 0 :=
      sorted_getD_mono hs (by omega) (by omega)
    have h2 : l.getD 0 0 ≤ l.getD (l.length / 2) 0 :=
      sorted_getD_mono hs (by omega) (by omega)
    linarith
  · rw [if_neg hp]
    exact sorted_getD_mono hs (by omega) (by omega)

/-- Q1 is at most the last element of the lower half, i.e. `sorted[n/2-1]`. -/
theorem q1_le_getD (hist : List ℚ) (h2 : 2 ≤ hist.length) :
    (quartiles hist).q1 ≤
      (hist.insertionSort (· ≤ ·)).getD (hist.length / 2 - 1) 0 := by
  set s := hist.insertionSort (· ≤ ·) with hsdef
  have hsorted : List.Sorted (· ≤ ·) s := List.sorted_insertionSort _ hist
  have hlen : s.length = hist.length := List.length_insertionSort _ hist
  have htsorted : List.Sorted (· ≤ ·) (s.take (s.length / 2)) :=
    List.Pairwise.sublist (List.take_sublist _ s) hsorted
  have htlen : (s.take (s.length / 2)).length = s.length / 2 := by
    rw [List.length_take]
    omega
  have htne : s.take (s.length / 2) ≠ [] := by
    intro h
    rw [← List.length_eq_zero] at h
    omega
  have h1 := medianSorted_le_last htsorted htne
  rw [htlen] at h1
  have h2e : (s.take (s.length / 2)).getD (s.length / 2 - 1) 0 =
      s.getD (s.length / 2 - 1) 0 := by
    have hb : s.length / 2 - 1 < s.length := by omega
    have hb2 : s.length / 2 - 1 < (s.take (s.length / 2)).length := by omega
    rw [List.getD_eq_getElem _ _ hb2, List.getD_eq_getElem _ _ hb]
    exact List.getElem_take s
  show medianSorted (s.take (s.length / 2)) ≤ s.getD (hist.length / 2 - 1) 0
  rw [← hlen]
  rw [h2e] at h1
  exact h1

/-- Q3 is at least the first element of the upper half, i.e.
`sorted[(n+1)/2]`. -/
theorem q3_ge_getD (hist : List ℚ) (h2 : 2 ≤ hist.length) :
    (hist.insertionSort (· ≤ ·)).getD ((hist.length + 1) / 2) 0 ≤
      (quartiles hist).q3 := by
  set s := hist.insertionSort (· ≤ ·) with hsdef
  have hsorted : List.Sorted (· ≤ ·) s := List.sorted_insertionSort _ hist
  have hlen : s.length = hist.length := List.length_insertionSort _ hist
  have hdsorted : List.Sorted (· ≤ ·) (s.drop ((s.length + 1) / 2)) :=
    List.Pairwise.sublist (List.drop_sublist _ s) hsorted
  have hdne : s.drop ((s.length + 1) / 2) ≠ [] := by
    intro h
    rw [← List.length_eq_zero] at h
    rw [List.length_drop] at h
    omega
  have h1 := medianSorted_ge_head hdsorted hdne
  have h2e : (s.drop ((s.length + 1) / 2)).getD 0 0 =
      s.getD ((s.length + 1) / 2) 0 := by
    have hb : (s.length + 1) / 2 < s.length := by omega
    have hb2 : 0 < (s.drop ((s.length + 1) / 2)).length := by
      rw [List.length_drop]
      omega
    rw [List.getD_eq_getElem _ _ hb2, List.getD_eq_getElem _ _ hb]
    exact List.getElem_drop s
  show s.getD ((hist.length + 1) / 2) 0 ≤ medianSorted (s.drop ((s.length + 1) / 2))
  rw [← hlen]
  rw [h2e] at h1
  exact h1

/-- Q1 is at most Q3. -/
theorem q1_le_q3 (hist : List ℚ) (h2 : 2 ≤ hist.length) :
    (quartiles hist).q1 ≤ (quartiles hist).q3 := by
  have hsorted : List.Sorted (· ≤ ·) (hist.insertionSort (· ≤ ·)) :=
    List.sorted_insertionSort _ hist
  have hlen : (hist.insertionSort (· ≤ ·)).length = hist.length :=
    List.length_insertionSort _ hist
  have h1 := q1_le_getD hist h2
  have h3 := q3_ge_getD hist h2
  have hmid : (hist.insertionSort (· ≤ ·)).getD (hist.length / 2 - 1) 0 ≤
      (hist.insertionSort (· ≤ ·)).getD ((hist.length + 1) / 2) 0 :=
    sorted_getD_mono hsorted (by omega) (by omega)
  linarith

/-- `mean` of a nonempty list is sum over length. -/
theorem mean_eq (l : List ℚ) (h : l ≠ []) : mean l = l.sum / l.length := by
  unfold mean
  rw [if_neg]
  intro hc
  exact h (List.length_eq_zero.mp hc)

/-- A nonzero `stdDevSq` certifies at least 2 points. -/
theorem two_le_of_stdDevSq_ne (l : List ℚ) (h : stdDevSq l ≠ 0) : 2 ≤ l.length := by
  by_contra hc
  push_neg at hc
  exact h (by unfold stdDevSq; rw [if_pos (by omega)])

/-- For at least 2 points, `stdDevSq` is the mean squared deviation. -/
theorem stdDevSq_eq (l : List ℚ) (h2 : 2 ≤ l.length) :
    stdDevSq l = (l.map (fun x => (x - mean l) ^ 2)).sum / l.length := by
  have hne : l.map (fun x => (x - mean l) ^ 2) ≠ [] := by
    intro hc
    have := congrArg List.length hc
    simp only [List.length_map, List.length_nil] at this
    omega
  unfold stdDevSq
  rw [if_neg (by omega), mean_eq _ hne, List.length_map]

/-- The sum of squared deviations is nonnegative. -/
theorem sq_dev_sum_nonneg (l : List ℚ) (μ : ℚ) :
    0 ≤ (l.map (fun x => (x - μ) ^ 2)).sum := by
  apply List.sum_nonneg
  intro x hx
  rw [List.mem_map] at hx
  obtain ⟨y, -, rfl⟩ := hx
  positivity

/-- A z-score above 2 places the value at or above the first quartile of the
same list: more than half the points sit at or above Q1, so a value below Q1
cannot be more than 2 standard deviations above the mean. -/
theorem zGtTwo_le_q1 (v : ℚ) (hist : List ℚ) (hz : zGtTwoB v hist = true) :
    (quartiles hist).q1 ≤ v := by
  by_contra hgt
  push_neg at hgt
  rw [zGtTwoB, decide_eq_true_eq] at hz
  obtain ⟨hsd, hmean, hfar⟩ := hz
  have h2 : 2 ≤ hist.length := two_le_of_stdDevSq_ne hist hsd
  set n := hist.length with hn
  set μ := mean hist with hμ
  set s := hist.insertionSort (· ≤ ·) with hs
  have hslen : s.length = n := List.length_insertionSort _ hist
  have hsorted : List.Sorted (· ≤ ·) s := List.sorted_insertionSort _ hist
  set SQ := (hist.map (fun x => (x - μ) ^ 2)).sum with hSQ
  have hsd_eq : stdDevSq hist = SQ / n := stdDevSq_eq hist h2
  have hq1 : (quartiles hist).q1 ≤ s.getD (n / 2 - 1) 0 := q1_le_getD hist h2
  have hvlt : v < s.getD (n / 2 - 1) 0 := lt_of_lt_of_le hgt hq1
  have hbound : ∀ y ∈ (s.drop (n / 2 - 1)).map (fun x => (x - μ) ^ 2),
      (v - μ) ^ 2 ≤ y := by
    intro y hy
    rw [List.mem_map] at hy
    obtain ⟨x, hx, rfl⟩ := hy
    have h1 : s.getD (n / 2 - 1) 0 ≤ x :=
      sorted_drop_ge hsorted (by omega) x hx
    exact pow_le_pow_left₀ (by linarith) (by linarith) 2
  have hsum1 := List.card_nsmul_le_sum
    ((s.drop (n / 2 - 1)).map (fun x => (x - μ) ^ 2)) ((v - μ) ^ 2) hbound
  rw [List.length_map, List.length_drop, hslen, nsmul_eq_mul] at hsum1
  have hsplit : ((s.take (n / 2 - 1)).map (fun x => (x - μ) ^ 2)).sum +
      ((s.drop (n / 2 - 1)).map (fun x => (x - μ) ^ 2)).sum = SQ := by
    rw [← List.sum_append, ← List.map_append, List.take_append_drop]
    exact ((List.perm_insertionSort (· ≤ ·) hist).map (fun x => (x - μ) ^ 2)).sum_eq
  have htnn : 0 ≤ ((s.take (n / 2 - 1)).map (fun x => (x - μ) ^ 2)).sum :=
    sq_dev_sum_nonneg _ μ
  have hSQle : ((n - (n / 2 - 1) : ℕ) : ℚ) * (v - μ) ^ 2 ≤ SQ := by linarith
  have hnpos : (0 : ℚ) < (n : ℚ) := by exact_mod_cast (by omega : 0 < n)
  have hfar2 : 4 * SQ < (v - μ) ^ 2 * n := by
    rw [hsd_eq] at hfar
    have h3 : 4 * SQ / n < (v - μ) ^ 2 := by rw [mul_div_assoc]; exact hfar
    exact (div_lt_iff₀ hnpos).mp h3
  have hSQnn : 0 ≤ SQ := sq_dev_sum_nonneg hist μ
  have hpos : 0 < (v - μ) ^ 2 := by
    rcases lt_or_eq_of_le (sq_nonneg (v - μ)) with h | h
    · exact h
    · exfalso
      apply hsd
      rw [hsd_eq]
      have : SQ ≤ 0 := by nlinarith
      have : SQ = 0 := le_antisymm this hSQnn
      rw [this, zero_div]
  have hcnat : 2 * n + 2 ≤ 4 * (n - (n / 2 - 1)) := by omega
  have hccast : (2 * (n : ℚ) + 2) ≤ 4 * ((n - (n / 2 - 1) : ℕ) : ℚ) := by
    exact_mod_cast hcnat
  have hchain : (2 * (n : ℚ) + 2) * (v - μ) ^ 2 < (n : ℚ) * (v - μ) ^ 2 := by
    have s1 : (2 * (n : ℚ) + 2) * (v - μ) ^ 2 ≤
        4 * ((n - (n / 2 - 1) : ℕ) : ℚ) * (v - μ) ^ 2 :=
      mul_le_mul_of_nonneg_right hccast (sq_nonneg _)
    nlinarith
  have : (2 * (n : ℚ) + 2) < (n : ℚ) := (mul_lt_mul_right hpos).mp hchain
  have : 2 * n + 2 < n := by exact_mod_cast this
  omega

/-- A z-score below -2 places the value at or below the third quartile of
the same list: more than half the points sit at or below Q3, so a value
above Q3 cannot be more than 2 standard deviations below the mean. -/
theorem zLtNegTwo_ge_q3 (v : ℚ) (hist : List ℚ) (hz : zLtNegTwoB v hist = true) :
    v ≤ (quartiles hist).q3 := by
  by_contra hgt
  push_neg at hgt
  rw [zLtNegTwoB, decide_eq_true_eq] at hz
  obtain ⟨hsd, hmean, hfar⟩ := hz
  have h2 : 2 ≤ hist.length := two_le_of_stdDevSq_ne hist hsd
  set n := hist.length with hn
  set μ := mean hist with hμ
  set s := hist.insertionSort (· ≤ ·) with hs
  have hslen : s.length = n := List.length_insertionSort _ hist
  have hsorted : List.Sorted (· ≤ ·) s := List.sorted_insertionSort _ hist
  set SQ := (hist.map (fun x => (x - μ) ^ 2)).sum with hSQ
  have hsd_eq : stdDevSq hist = SQ / n := stdDevSq_eq hist h2
  have hq3 : s.getD ((n + 1) / 2) 0 ≤ (quartiles hist).q3 := q3_ge_getD hist h2
  have hvgt : s.getD ((n + 1) / 2) 0 < v := lt_of_le_of_lt hq3 hgt
  have hbound : ∀ y ∈ (s.take ((n + 1) / 2 + 1)).map (fun x => (x - μ) ^ 2),
      (v - μ) ^ 2 ≤ y := by
    intro y hy
    rw [List.mem_map] at hy
    obtain ⟨x, hx, rfl⟩ := hy
    have h1 : x ≤ s.getD ((n + 1) / 2) 0 :=
      sorted_take_le hsorted (by omega) x hx
    have h4 : (μ - v) ^ 2 ≤ (μ - x) ^ 2 :=
      pow_le_pow_left₀ (by linarith) (by linarith) 2
    calc (v - μ) ^ 2 = (μ - v) ^ 2 := by ring
    _ ≤ (μ - x) ^ 2 := h4
    _ = (x - μ) ^ 2 := by ring
  have hsum1 := List.card_nsmul_le_sum
    ((s.take ((n + 1) / 2 + 1)).map (fun x => (x - μ) ^ 2)) ((v - μ) ^ 2) hbound
  rw [List.length_map, List.length_take, hslen, nsmul_eq_mul] at hsum1
  have hsplit : ((s.take ((n + 1) / 2 + 1)).map (fun x => (x - μ) ^ 2)).sum +
      ((s.drop ((n + 1) / 2 + 1)).map (fun x => (x - μ) ^ 2)).sum = SQ := by
    rw [← List.sum_append, ← List.map_append, List.take_append_drop]
    exact ((List.perm_insertionSort (· ≤ ·) hist).map (fun x => (x - μ) ^ 2)).sum_eq
  have htnn : 0 ≤ ((s.drop ((n + 1) / 2 + 1)).map (fun x => (x - μ) ^ 2)).sum :=
    sq_dev_sum_nonneg _ μ
  have hSQle : ((min ((n + 1) / 2 + 1) n : ℕ) : ℚ) * (v - μ) ^ 2 ≤ SQ := by linarith
  have hnpos : (0 : ℚ) < (n : ℚ) := by exact_mod_cast (by omega : 0 < n)
  have hfar2 : 4 * SQ < (v - μ) ^ 2 * n := by
    rw [hsd_eq] at hfar
    have h3 : 4 * SQ / n < (v - μ) ^ 2 := by rw [mul_div_assoc]; exact hfar
    exact (div_lt_iff₀ hnpos).mp h3
  have hSQnn : 0 ≤ SQ := sq_dev_sum_nonneg hist μ
  have hpos : 0 < (v - μ) ^ 2 := by
    rcases lt_or_eq_of_le (sq_nonneg (v - μ)) with h | h
    · exact h
    · exfalso
      apply hsd
      rw [hsd_eq]
      have : SQ ≤ 0 := by nlinarith
      have : SQ = 0 := le_antisymm this hSQnn
      rw [this, zero_div]
  have hcnat : 2 * n + 2 ≤ 4 * min ((n + 1) / 2 + 1) n := by omega
  have hccast : (2 * (n : ℚ) + 2) ≤ 4 * ((min ((n + 1) / 2 + 1) n : ℕ) : ℚ) := by
    exact_mod_cast hcnat
  have hchain : (2 * (n : ℚ) + 2) * (v - μ) ^ 2 < (n : ℚ) * (v - μ) ^ 2 := by
    have s1 : (2 * (n : ℚ) + 2) * (v - μ) ^ 2 ≤
        4 * ((min ((n + 1) / 2 + 1) n : ℕ) : ℚ) * (v - μ) ^ 2 :=
      mul_le_mul_of_nonneg_right hccast (sq_nonneg _)
    nlinarith
  have : (2 * (n : ℚ) + 2) < (n : ℚ) := (mul_lt_mul_right hpos).mp hchain
  have : 2 * n + 2 < n := by exact_mod_cast this
  omega

/-- The z-score path emits only when the series has at least 6 points and
the latest value fails the polarity-directed z-score test against the prior
values (`z > 2` for lower-is-better, `z < -2` otherwise). -/
theorem anomalyZPart_emission (series : List SeriesPoint) (ilb : Bool)
    (metricNumber now : ℕ) (i : Insight)
    (hi : i ∈ anomalyZPart series ilb metricNumber now) :
    6 ≤ series.length ∧
      (if ilb then
        zGtTwoB ((series.getD (series.length - 1) default).value)
          ((series.map (fun v => v.value)).dropLast) = true
      else
        zLtNegTwoB ((series.getD (series.length - 1) default).value)
          ((series.map (fun v => v.value)).dropLast) = true) := by
  simp only [anomalyZPart] at hi
  split at hi
  case isFalse => simp at hi
  case isTrue h6 =>
  refine ⟨h6, ?_⟩
  repeat' split at hi
  all_goals first
    | (rename_i hb hc hsev; rw [if_pos hb]; rw [Bool.and_eq_true] at hc; exact hc.1)
    | (rename_i hb hc hsev; rw [if_neg hb]; rw [Bool.and_eq_true] at hc; exact hc.1)
    | (rename_i hb hc; rw [if_pos hb]; rw [Bool.and_eq_true] at hc; exact hc.1)
    | (rename_i hb hc; rw [if_neg hb]; rw [Bool.and_eq_true] at hc; exact hc.1)
    | simp at hi

/-- The IQR path emits only when the series has at least 4 points and the
latest value crosses the polarity-directed IQR fence over the prior values
(above the upper bound for lower-is-better, below the lower bound
otherwise). -/
theorem anomalyIqrPart_emission (series : List SeriesPoint) (ilb : Bool)
    (metricNumber now : ℕ) (insights : List Insight) (i : Insight)
    (hi : i ∈ anomalyIqrPart series ilb metricNumber now insights) :
    4 ≤ series.length ∧
      (if ilb then
        (quartiles ((series.map (fun v => v.value)).dropLast)).q3 +
            3 / 2 * ((quartiles ((series.map (fun v => v.value)).dropLast)).q3 -
              (quartiles ((series.map (fun v => v.value)).dropLast)).q1) <
          (series.getD (series.length - 1) default).value
      else
        (series.getD (series.length - 1) default).value <
          (quartiles ((series.map (fun v => v.value)).dropLast)).q1 -
            3 / 2 * ((quartiles ((series.map (fun v => v.value)).dropLast)).q3 -
              (quartiles ((series.map (fun v => v.value)).dropLast)).q1)) := by
  simp only [anomalyIqrPart] at hi
  split at hi
  case isFalse => simp at hi
  case isTrue h4 =>
  refine ⟨h4, ?_⟩
  repeat' split at hi
  all_goals first
    | (rename_i hb hc hfind; rw [if_pos hb]; simpa using hc)
    | (rename_i hb hc hfind; rw [if_neg hb]; simpa using hc)
    | (rename_i hb hc; rw [if_pos hb]; simpa using hc)
    | (rename_i hb hc; rw [if_neg hb]; simpa using hc)
    | simp at hi

/-- C1: for every periods list, tolerance list and metric whose prepared
series has at least 3 points, the anomaly generator never flags the metric
when its most recent value is *better* than history under its declared
polarity: with lower-is-better a lower outlier (z-score below -2 or value
below the IQR lower fence) is never flagged, and with higher-is-better a
higher outlier (z-score above 2 or value above the IQR upper fence) is
never flagged.  (`hist` is the series values without the latest point and
`recent` the latest value, as the source computes them.) -/
theorem claim_c1 (periods : List Period) (options : InsightsOptions)
    (tolerances : List ToleranceBand) (now m : ℕ)
    (hist : List ℚ) (recent : ℚ)
    (hhist : hist =
      ((prepareMetricTimeSeries periods m).map (fun v => v.value)).dropLast)
    (hrecent : recent = ((prepareMetricTimeSeries periods m).getD
      ((prepareMetricTimeSeries periods m).length - 1) default).value)
    (hgood : if isLowerBetterOf tolerances m then
        zLtNegTwoB recent hist = true ∨
          recent < (quartiles hist).q1 -
            3 / 2 * ((quartiles hist).q3 - (quartiles hist).q1)
      else
        zGtTwoB recent hist = true ∨
          (quartiles hist).q3 +
            3 / 2 * ((quartiles hist).q3 - (quartiles hist).q1) < recent) :
    ∀ i ∈ generateAnomalyInsights periods options tolerances now,
      m ∉ i.metricKeys := by
  intro i hi hmem
  rcases mem_anomaly_foldl periods tolerances now (metricNumbersOf options) [] i hi with
    h | ⟨m', hm', hz | ⟨prior, hiqr⟩⟩
  · simp at h
  · obtain ⟨-, hk, -⟩ := anomalyZPart_fields _ _ _ _ i hz
    rw [hk, List.mem_singleton] at hmem
    subst hmem
    obtain ⟨h6, hcond⟩ := anomalyZPart_emission _ _ _ _ i hz
    rw [← hhist, ← hrecent] at hcond
    have hlen : 2 ≤ hist.length := by
      rw [hhist, List.length_dropLast, List.length_map]
      omega
    have hq13 : (quartiles hist).q1 ≤ (quartiles hist).q3 := q1_le_q3 hist hlen
    rcases Bool.dichotomy (isLowerBetterOf tolerances m) with hb | hb
    · rw [hb, if_neg Bool.false_ne_true] at hcond hgood
      rcases hgood with hg | hg
      · rw [zGtTwoB, decide_eq_true_eq] at hg
        rw [zLtNegTwoB, decide_eq_true_eq] at hcond
        linarith [hg.2.1, hcond.2.1]
      · have h1 : recent ≤ (quartiles hist).q3 := zLtNegTwo_ge_q3 _ hist hcond
        linarith
    · rw [hb, if_pos rfl] at hcond hgood
      rcases hgood with hg | hg
      · rw [zLtNegTwoB, decide_eq_true_eq] at hg
        rw [zGtTwoB, decide_eq_true_eq] at hcond
        linarith [hg.2.1, hcond.2.1]
      · have h1 : (quartiles hist).q1 ≤ recent := zGtTwo_le_q1 _ hist hcond
        linarith
  · obtain ⟨-, hk, -⟩ := anomalyIqrPart_fields _ _ _ _ _ i hiqr
    rw [hk, List.mem_singleton] at hmem
    subst hmem
    obtain ⟨h4, hcond⟩ := anomalyIqrPart_emission _ _ _ _ _ i hiqr
    rw [← hhist, ← hrecent] at hcond
    have hlen : 2 ≤ hist.length := by
      rw [hhist, List.length_dropLast, List.length_map]
      omega
    have hq13 : (quartiles hist).q1 ≤ (quartiles hist).q3 := q1_le_q3 hist hlen
    rcases Bool.dichotomy (isLowerBetterOf tolerances m) with hb | hb
    · rw [hb, if_neg Bool.false_ne_true] at hcond hgood
      rcases hgood with hg | hg
      · have h1 : (quartiles hist).q1 ≤ recent := zGtTwo_le_q1 _ hist hg
        linarith
      · linarith
    · rw [hb, if_pos rfl] at hcond hgood
      rcases hgood with hg | hg
      · have h1 : recent ≤ (quartiles hist).q3 := zLtNegTwo_ge_q3 _ hist hg
        linarith
      · linarith

set_option maxHeartbeats 1000000 in
/-- Witness for C1: six months of values `10,12,10,12,10,30` (higher is
better, empty tolerance list) end on a *good* high outlier (z-score above
2), so the anomaly generator emits nothing referencing metric 1. -/
theorem claim_c1_witness :
    (generateAnomalyInsights wPeriodsHigh wOptsM1 [] 0).all
      (fun i => decide (1 ∉ i.metricKeys)) = true := by
  have hprep : prepareMetricTimeSeries wPeriodsHigh 1 =
      [⟨⟨2024, 1⟩, 10, 0⟩, ⟨⟨2024, 2⟩, 12, 1⟩, ⟨⟨2024, 3⟩, 10, 2⟩,
       ⟨⟨2024, 4⟩, 12, 3⟩, ⟨⟨2024, 5⟩, 10, 4⟩, ⟨⟨2024, 6⟩, 30, 5⟩] := by
    norm_num [prepareMetricTimeSeries, sortAsc, List.insertionSort,
      List.orderedInsert, wPeriodsHigh, wPeriod1, dateLEP, monthOf, List.find?,
      List.filterMap_cons, List.filterMap_nil]
  have hmain : ∀ i ∈ generateAnomalyInsights wPeriodsHigh wOptsM1 [] 0,
      1 ∉ i.metricKeys := by
    apply claim_c1 wPeriodsHigh wOptsM1 [] 0 1 [10, 12, 10, 12, 10] 30
    · rw [hprep]
      rfl
    · rw [hprep]
      rfl
    · have hilb : isLowerBetterOf [] 1 = false := rfl
      rw [hilb, if_neg Bool.false_ne_true]
      left
      rw [zGtTwoB, decide_eq_true_eq]
      norm_num [stdDevSq, mean]
  rw [List.all_eq_true]
  intro i hi
  exact decide_eq_true (hmain i hi)
